import Mathlib

/-!
# Portfolio backend (`src/api/index.js`)

A shallow embedding of the Express application: the schemas and models, the
endpoint factory `createCrudEndpoints`, the two hero handlers, the login
handler and the routing table, over an explicit model of the document store.

The schemas, the handlers and the routing are translated from the source.
The document store behind `model.find`, `item.save`, ... is an external
collaborator. What the specification and the schema options of the source
fix of it is modelled concretely; what they leave open is a parameter
(`Engine`).
-/

namespace Portofolio

/-! ## Data model -/

/-- JSON values, as produced by the body parser (`express.json`). A number is
an integer-valued one. -/
inductive JsVal where
  | null : JsVal
  | bool (b : Bool) : JsVal
  | num (n : Int) : JsVal
  | str (s : String) : JsVal
  | arr (xs : List JsVal) : JsVal
  | obj (kvs : List (String × JsVal)) : JsVal

/-- A field-map: a parsed request body, or the declared part of a document. -/
abbrev FieldMap := List (String × JsVal)

/-- A stored document: identifier, the fields of the schema's definition, and
the two timestamps (milliseconds; absent when the schema keeps none). The
version key the store adds is left out. -/
structure Doc where
  _id : Nat
  fields : FieldMap
  createdAt : Option Int
  updatedAt : Option Int

/-- One collection of the store, in natural (insertion) order. -/
abbrev Store := List Doc

/-- The field types the schemas use: `String` and `[String]`. -/
inductive SchemaType where
  | string : SchemaType
  | stringArray : SchemaType

/-- A schema: the declared fields with their types, and whether the store
keeps `createdAt` and `updatedAt` for its documents. -/
structure Schema where
  definition : List (String × SchemaType)
  timestamps : Bool

/-- `createGenericSchema(definition)`:
`new mongoose.Schema(definition, { timestamps: true })`. -/
def createGenericSchema (definition : List (String × SchemaType)) : Schema :=
  { definition := definition, timestamps := true }

/-- `HeroSchema`. -/
def HeroSchema : Schema :=
  createGenericSchema [("preTitle", .string), ("name", .string), ("highlight", .string),
    ("description", .string), ("imageData", .string)]

/-- `ItemSchema` (portfolio items and articles). -/
def ItemSchema : Schema :=
  createGenericSchema [("title", .string), ("description", .string), ("tags", .stringArray),
    ("imageData", .string)]

/-- `EducationSchema`. -/
def EducationSchema : Schema :=
  createGenericSchema [("title", .string), ("degree", .string), ("years", .string)]

/-- `ExperienceSchema`. -/
def ExperienceSchema : Schema := createGenericSchema [("title", .string), ("company", .string)]

/-- `OrganizationSchema`. -/
def OrganizationSchema : Schema := createGenericSchema [("name", .string), ("role", .string)]

/-- `ActivitySchema`. -/
def ActivitySchema : Schema :=
  createGenericSchema [("title", .string), ("description", .string)]

/-- `SkillSchema`. -/
def SkillSchema : Schema := createGenericSchema [("name", .string)]

/-- A model: `mongoose.model(name, schema)`, the handle on one collection. -/
structure Model where
  name : String
  schema : Schema

/-- `Hero`. -/
def Hero : Model := ⟨"Hero", HeroSchema⟩

/-- `Portfolio`. -/
def Portfolio : Model := ⟨"Portfolio", ItemSchema⟩

/-- `Article`. -/
def Article : Model := ⟨"Article", ItemSchema⟩

/-- `Education`. -/
def Education : Model := ⟨"Education", EducationSchema⟩

/-- `Experience`. -/
def Experience : Model := ⟨"Experience", ExperienceSchema⟩

/-- `Organization`. -/
def Organization : Model := ⟨"Organization", OrganizationSchema⟩

/-- `Activity`. -/
def Activity : Model := ⟨"Activity", ActivitySchema⟩

/-- `Skill`. -/
def Skill : Model := ⟨"Skill", SkillSchema⟩

/-- The type a schema declares for a field name, `none` for an undeclared
name. -/
def Schema.typeOf (s : Schema) (k : String) : Option SchemaType := s.definition.lookup k

/-- Whether a schema declares a field of that name. -/
def Schema.declares (s : Schema) (k : String) : Bool := (s.typeOf k).isSome

/-- The value a document (or a body) holds under a field name, `none` for
`undefined`. -/
def getField (fm : FieldMap) (k : String) : Option JsVal := fm.lookup k

/-! ## The document store (external collaborator) -/

/-- What the store makes of a value submitted for a date path: nothing
(`null`, so the path stays unset), a date, or a failed cast. -/
inductive DateCast where
  | nullish : DateCast
  | date (t : Int) : DateCast
  | invalid : DateCast

/-- What an insert is to store, before the store completes it: the
identifier the body asks for (if any), the fields, and the creation
timestamp the body asks for (if any). -/
structure Draft where
  _id : Option Nat
  fields : FieldMap
  createdAt : Option Int

/-- The store engine where neither the source nor the specification fixes
its behaviour, taken as a parameter:
* `cast`: the cast of a value to a declared type, for the values `castValue`
  does not settle (`none`: the cast fails);
* `castDate`: the cast of a value to a date, for the values `castDate` does
  not settle;
* `create`: the draft of an insert whose body has a key that is no plain
  field name (`_id`, `id`, `__v`, `updatedAt`, an operator, a dotted path);
  `none`: the store refuses it;
* `update`: the effect of an update whose body the model does not read
  (see `readUpdate`); `none`: the store refuses the body, and the effect
  itself may be refused for a given document. -/
structure Engine where
  cast : SchemaType → JsVal → Option JsVal
  castDate : JsVal → DateCast
  create : Schema → Int → FieldMap → Option Draft
  update : Schema → Int → FieldMap → Option (Doc → Option Doc)

/-- What one request sees of the process and the world: the environment
variable `process.env.ADMIN_PASSWORD` (`none` when unset); the clock
reading at which the store performs a write; whether its store call is
rejected from outside the model (`fault = some m`: a connectivity failure,
a malformed identifier, any error with message `m`); the identifier the
store generates for an insert; the message of an error the store raises
for reasons inside the model (a failed cast, conflicting operators, a
duplicate identifier); and the engine. -/
structure Ctx where
  ADMIN_PASSWORD : Option String
  now : Int
  fault : Option String
  newId : Nat
  refusal : String
  engine : Engine

/-- Names the store reserves. -/
def reservedNames : List String := ["_id", "id", "__v", "createdAt", "updatedAt"]

/-- A plain field name: not reserved, no operator (`$...`), no dotted path. -/
def isPlainName (k : String) : Bool :=
  !(reservedNames.contains k) && k.data.head? != some '$' && !(k.data.contains '.')

/-- Whether a JSON value is a string. -/
def JsVal.isStr : JsVal → Bool
  | .str _ => true
  | _ => false

/-- The store's cast of a submitted value to the declared type of its field
(`none`: the cast fails and the store refuses the request). A string stays
as it is for `String`, an array of strings for `[String]`; `null` is kept; a
number or a boolean submitted for a `String` becomes its text; an array
submitted for a `String` fails. The rest is the engine's. -/
def castValue (eng : Engine) : SchemaType → JsVal → Option JsVal
  | .string, .str s => some (.str s)
  | .string, .null => some .null
  | .string, .bool b => some (.str (if b then "true" else "false"))
  | .string, .num n =>
    if n.natAbs ≤ 9007199254740991 then some (.str (toString n)) else eng.cast .string (.num n)
  | .string, .arr _ => none
  | .stringArray, .arr xs =>
    if xs.all JsVal.isStr then some (.arr xs) else eng.cast .stringArray (.arr xs)
  | t, v => eng.cast t v

/-- The store's cast of a submitted `createdAt`: `null` leaves it unset, a
number of milliseconds in the range of dates is that date, a number outside
it fails. The rest is the engine's. -/
def castDate (eng : Engine) : JsVal → DateCast
  | .null => .nullish
  | .num n =>
    if -8640000000000000 ≤ n ∧ n ≤ 8640000000000000 then .date n else .invalid
  | v => eng.castDate v

/-- The fields a new document starts with: the empty array for every
declared `[String]` field. -/
def defaults (s : Schema) : FieldMap :=
  s.definition.filterMap (fun p =>
    match s.typeOf p.1 with
    | some .stringArray => some (p.1, JsVal.arr [])
    | _ => none)

/-- A field-map with one field set. -/
def setField (k : String) (v : JsVal) (fm : FieldMap) : FieldMap :=
  (k, v) :: fm.filter (fun p => p.1 != k)

/-- A field-map with one field removed. -/
def unsetField (k : String) (fm : FieldMap) : FieldMap := fm.filter (fun p => p.1 != k)

/-- The assignments a body makes under a schema: names the schema does not
declare are dropped (strict schema), every other value is cast to the
declared type; `none` when a cast fails. -/
def castSets (s : Schema) (eng : Engine) : FieldMap → Option FieldMap
  | [] => some []
  | (k, v) :: rest =>
    match castSets s eng rest with
    | none => none
    | some cs =>
      match s.typeOf k with
      | none => some cs
      | some t =>
        match castValue eng t v with
        | none => none
        | some w => some ((k, w) :: cs)

/-- A field-map after a list of assignments (the first assignment to a name
is the one that counts). -/
def applySets (cs : FieldMap) (fm : FieldMap) : FieldMap :=
  cs.foldr (fun p acc => setField p.1 p.2 acc) fm

/-- The draft `new model(body)` builds: for a body of plain field names
(and possibly `createdAt`), the defaults with the body's cast assignments,
and the creation timestamp the body supplies; any other body is the
engine's. `none`: a cast failed. -/
def newDoc (s : Schema) (ctx : Ctx) (body : FieldMap) : Option Draft :=
  if body.all (fun p => isPlainName p.1 || p.1 == "createdAt") then
    match castSets s ctx.engine body with
    | none => none
    | some cs =>
      match (if s.timestamps then body.lookup "createdAt" else none) with
      | none => some { _id := none, fields := applySets cs (defaults s), createdAt := none }
      | some v =>
        match castDate ctx.engine v with
        | .nullish => some { _id := none, fields := applySets cs (defaults s), createdAt := none }
        | .date t => some { _id := none, fields := applySets cs (defaults s), createdAt := some t }
        | .invalid => none
  else ctx.engine.create s ctx.now body

/-- The document the store writes for a draft: the draft's identifier or
else the generated one; with `timestamps`, the draft's creation timestamp
or else the clock reading, and the same as modification timestamp. -/
def completeDraft (s : Schema) (ctx : Ctx) (dr : Draft) : Doc :=
  { _id := dr._id.getD ctx.newId
    fields := dr.fields
    createdAt := if s.timestamps then some (dr.createdAt.getD ctx.now) else none
    updatedAt := if s.timestamps then some (dr.createdAt.getD ctx.now) else none }

/-- The fields of the operand of `$set` or `$unset`, when the model reads
it: no operand is the empty one, an object of plain field names is its
entries. -/
def operand : Option JsVal → Option FieldMap
  | none => some []
  | some (.obj kvs) => if kvs.all (fun p => isPlainName p.1) then some kvs else none
  | some _ => none

/-- The update a body asks for, when the model reads it: top-level plain
field names and the entries of `$set` are assignments (a top-level name
goes before the same name under `$set`), the names under `$unset` are
removals. `none` for any other body (another operator, a reserved name, a
dotted path). -/
def readUpdate (body : FieldMap) : Option (FieldMap × List String) :=
  if (body.filter (fun p => p.1 != "$set" && p.1 != "$unset")).all (fun p => isPlainName p.1) then
    match operand (body.lookup "$set"), operand (body.lookup "$unset") with
    | some sets, some unsets =>
      some (body.filter (fun p => p.1 != "$set" && p.1 != "$unset") ++ sets,
        unsets.map Prod.fst)
    | _, _ => none
  else none

/-- The update the store makes of a body, as a function of the document
it finds; `none`: the store refuses the body (a failed cast, or a name both
assigned and removed). For a body the model reads: declared names under
`$unset` are removed, the cast assignments made, and with `timestamps` the
modification timestamp becomes the clock reading; identifier and creation
timestamp stay. -/
def castUpdate (s : Schema) (ctx : Ctx) (body : FieldMap) : Option (Doc → Option Doc) :=
  match readUpdate body with
  | none => ctx.engine.update s ctx.now body
  | some (sets, unsets) =>
    match castSets s ctx.engine sets with
    | none => none
    | some cs =>
      if unsets.any (fun k => s.declares k && (cs.lookup k).isSome) then none
      else some (fun d => some
        { d with
          fields := applySets cs ((unsets.filter s.declares).foldr unsetField d.fields)
          updatedAt := if s.timestamps then some ctx.now else d.updatedAt })

/-- The document under an identifier. -/
def findById (id : Nat) (st : Store) : Option Doc := st.find? (fun d => d._id == id)

/-- The collection with the first document under `id` replaced by `d'`. -/
def replaceById (id : Nat) (d' : Doc) : Store → Store
  | [] => []
  | d :: ds => if d._id = id then d' :: ds else d :: replaceById id d' ds

/-- Modelled from the spec: remove the document addressed by `id`,
returning it, or `none` and the collection untouched when there is none. -/
def deleteById (id : Nat) : Store → Option Doc × Store
  | [] => (none, [])
  | d :: ds =>
    if d._id = id then (some d, ds)
    else ((deleteById id ds).1, d :: (deleteById id ds).2)

/-- Order of two creation timestamps, a missing one before any date. -/
def dateLe : Option Int → Option Int → Bool
  | none, _ => true
  | some _, none => false
  | some a, some b => decide (a ≤ b)

/-- Strict order of two creation timestamps. -/
def dateLt (x y : Option Int) : Bool := !dateLe y x

/-- The order `{ createdAt: -1 }` asks for: `a` may stand before `b` when
`a` was created no earlier than `b`. -/
def recentFirst (a b : Doc) : Prop := dateLe b.createdAt a.createdAt = true

instance : DecidableRel recentFirst := fun a b =>
  inferInstanceAs (Decidable (dateLe b.createdAt a.createdAt = true))

instance : IsTotal Doc recentFirst :=
  ⟨fun a b => by
    unfold recentFirst
    cases a.createdAt <;> cases b.createdAt <;> simp [dateLe]
    exact Int.le_total _ _⟩

instance : IsTrans Doc recentFirst :=
  ⟨fun a b c => by
    unfold recentFirst
    cases a.createdAt <;> cases b.createdAt <;> cases c.createdAt <;> simp [dateLe]
    exact fun h1 h2 => Int.le_trans h2 h1⟩

/-- Modelled from the spec: the outcome of one awaited store call. A call
either rejects with an error whose message is `m` (`fault = some m`, the
store left as it was: "each request is a single atomic store call: it
either fully succeeds or fully fails") or goes on to `r`. -/
def settle {α : Type} (fault : Option String) (r : Except String α) : Except String α :=
  match fault with
  | some m => .error m
  | none => r

/-- Modelled from the spec: the store's answer to
`model.find().sort({ createdAt: -1 })`: every document of the collection,
"ordered by creation time, most recent first". -/
def find_sort (ctx : Ctx) (st : Store) : Except String (List Doc) :=
  settle ctx.fault (.ok (st.insertionSort recentFirst))

/-- The store's answer to `item.save()` for `item = new model(body)`: the
document written, appended to the collection; an error when the draft
fails or its identifier is already in the collection. -/
def save (model : Model) (ctx : Ctx) (body : FieldMap) (st : Store) :
    Except String (Doc × Store) :=
  settle ctx.fault
    (match newDoc model.schema ctx body with
     | none => .error ctx.refusal
     | some dr =>
       if st.any (fun e => e._id == (completeDraft model.schema ctx dr)._id) then
         .error ctx.refusal
       else .ok (completeDraft model.schema ctx dr, st ++ [completeDraft model.schema ctx dr]))

/-- The store's answer to `model.findByIdAndUpdate(id, body, { new: true })`:
the document after the update, or `null` when the identifier resolves to
nothing; an error when the store refuses the update. -/
def findByIdAndUpdate (model : Model) (ctx : Ctx) (id : Nat) (body : FieldMap) (st : Store) :
    Except String (Option Doc × Store) :=
  settle ctx.fault
    (match castUpdate model.schema ctx body with
     | none => .error ctx.refusal
     | some op =>
       match findById id st with
       | none => .ok (none, st)
       | some d =>
         match op d with
         | none => .error ctx.refusal
         | some d' => .ok (some { d' with _id := d._id }, replaceById id { d' with _id := d._id } st))

/-- Modelled from the spec: the store's answer to
`model.findByIdAndDelete(id)`: the removed document, or `null`. -/
def findByIdAndDelete (ctx : Ctx) (id : Nat) (st : Store) :
    Except String (Option Doc × Store) :=
  settle ctx.fault (.ok (deleteById id st))

/-- Modelled from the spec: the store's answer to `Hero.findOne()`: "the
single existing document", or `null` when the collection is empty. -/
def findOne (ctx : Ctx) (st : Store) : Except String (Option Doc) :=
  settle ctx.fault (.ok st.head?)

/-- The document an upsert starts from when the collection is empty. -/
def blankDoc (s : Schema) (ctx : Ctx) : Doc :=
  { _id := ctx.newId
    fields := defaults s
    createdAt := if s.timestamps then some ctx.now else none
    updatedAt := none }

/-- The store's answer to
`Hero.findOneAndUpdate({}, body, { new: true, upsert: true })`: the first
document updated in place, or, when there is none, a new document made by
the same update; an error when the store refuses the update. -/
def findOneAndUpdate (model : Model) (ctx : Ctx) (body : FieldMap) (st : Store) :
    Except String (Doc × Store) :=
  settle ctx.fault
    (match castUpdate model.schema ctx body with
     | none => .error ctx.refusal
     | some op =>
       match st with
       | [] =>
         (match op (blankDoc model.schema ctx) with
          | none => .error ctx.refusal
          | some d' => .ok ({ d' with _id := ctx.newId }, [{ d' with _id := ctx.newId }]))
       | d :: ds =>
         (match op d with
          | none => .error ctx.refusal
          | some d' => .ok ({ d' with _id := d._id }, { d' with _id := d._id } :: ds)))

/-! ## HTTP layer -/

/-- What a handler hands to `res.json`. -/
inductive Body where
  | items (ds : List Doc) : Body
  | item (d : Doc) : Body
  | null : Body
  | object (kvs : FieldMap) : Body

/-- An HTTP response: status code and JSON body. -/
structure Response where
  status : Nat
  body : Body

/-- The object literal `{ message: m }`. -/
def messageBody (m : String) : Body := .object [("message", .str m)]

/-- Requests a router built by `createCrudEndpoints` answers. -/
inductive CrudReq where
  | get : CrudReq
  | post (body : FieldMap) : CrudReq
  | put (id : Nat) (body : FieldMap) : CrudReq
  | delete (id : Nat) : CrudReq

/-- `router.get('/')`. -/
def crudGet (ctx : Ctx) (st : Store) : Response × Store :=
  match find_sort ctx st with
  | .ok items => (⟨200, .items items⟩, st)
  | .error m => (⟨500, messageBody m⟩, st)

/-- `router.post('/')`. -/
def crudPost (model : Model) (ctx : Ctx) (body : FieldMap) (st : Store) : Response × Store :=
  match save model ctx body st with
  | .ok (newItem, st') => (⟨201, .item newItem⟩, st')
  | .error m => (⟨400, messageBody m⟩, st)

/-- The JSON of a query result that is a document or `null`. -/
def jsonDoc : Option Doc → Body
  | some d => .item d
  | none => .null

/-- `router.put('/:id')`. -/
def crudPut (model : Model) (ctx : Ctx) (id : Nat) (body : FieldMap) (st : Store) :
    Response × Store :=
  match findByIdAndUpdate model ctx id body st with
  | .ok (updatedItem, st') => (⟨200, jsonDoc updatedItem⟩, st')
  | .error m => (⟨400, messageBody m⟩, st)

/-- `router.delete('/:id')`. -/
def crudDelete (ctx : Ctx) (id : Nat) (st : Store) : Response × Store :=
  match findByIdAndDelete ctx id st with
  | .ok (none, st') => (⟨404, messageBody "Item tidak ditemukan"⟩, st')
  | .ok (some _, st') => (⟨200, messageBody "Item berhasil dihapus"⟩, st')
  | .error m => (⟨500, messageBody m⟩, st)

/-- `createCrudEndpoints(model)`: the four handlers over one collection. -/
def createCrudEndpoints (model : Model) (ctx : Ctx) (req : CrudReq) (st : Store) :
    Response × Store :=
  match req with
  | .get => crudGet ctx st
  | .post body => crudPost model ctx body st
  | .put id body => crudPut model ctx id body st
  | .delete id => crudDelete ctx id st

/-- `app.get('/api/hero')`. -/
def heroGet (ctx : Ctx) (st : Store) : Response × Store :=
  match findOne ctx st with
  | .ok heroData => (⟨200, (heroData.map Body.item).getD (.object [])⟩, st)
  | .error m => (⟨500, messageBody m⟩, st)

/-- `app.post('/api/hero')`. -/
def heroPost (ctx : Ctx) (body : FieldMap) (st : Store) : Response × Store :=
  match findOneAndUpdate Hero ctx body st with
  | .ok (heroData, st') => (⟨200, .item heroData⟩, st')
  | .error m => (⟨400, messageBody m⟩, st)

/-- The comparison `password === process.env.ADMIN_PASSWORD`: the left side
is a JSON value or `undefined`, the right side a string or `undefined`. -/
def strictEq : Option JsVal → Option String → Bool
  | none, none => true
  | some (.str p), some s => p == s
  | _, _ => false

/-- `app.post('/api/login')`. -/
def login (ctx : Ctx) (body : FieldMap) : Response :=
  if strictEq (getField body "password") ctx.ADMIN_PASSWORD then
    ⟨200, .object [("success", .bool true), ("message", .str "Login berhasil")]⟩
  else
    ⟨401, .object [("success", .bool false), ("message", .str "Password salah")]⟩

/-- The collections served through `createCrudEndpoints`, by route prefix. -/
inductive Coll where
  | portfolio | articles | education | experience | organization | activity | skills

/-- The model registered under each route prefix. -/
def Coll.model : Coll → Model
  | .portfolio => Portfolio
  | .articles => Article
  | .education => Education
  | .experience => Experience
  | .organization => Organization
  | .activity => Activity
  | .skills => Skill

/-- The whole store: one collection per model. -/
structure Db where
  hero : Store
  portfolio : Store
  articles : Store
  education : Store
  experience : Store
  organization : Store
  activity : Store
  skills : Store

/-- The collection behind a route prefix. -/
def Db.get (db : Db) : Coll → Store
  | .portfolio => db.portfolio
  | .articles => db.articles
  | .education => db.education
  | .experience => db.experience
  | .organization => db.organization
  | .activity => db.activity
  | .skills => db.skills

/-- The store with one collection replaced. -/
def Db.set (db : Db) (c : Coll) (st : Store) : Db :=
  match c with
  | .portfolio => { db with portfolio := st }
  | .articles => { db with articles := st }
  | .education => { db with education := st }
  | .experience => { db with experience := st }
  | .organization => { db with organization := st }
  | .activity => { db with activity := st }
  | .skills => { db with skills := st }

/-- The store before any request. -/
def Db.empty : Db := ⟨[], [], [], [], [], [], [], []⟩

/-- Requests the application routes. -/
inductive Request where
  | heroGet : Request
  | heroPost (body : FieldMap) : Request
  | login (body : FieldMap) : Request
  | crud (c : Coll) (r : CrudReq) : Request

/-- The routing table: `/api/hero`, `/api/login` and the seven
`app.use('/api/...', createCrudEndpoints(...))` registrations. -/
def app (ctx : Ctx) (req : Request) (db : Db) : Response × Db :=
  match req with
  | .heroGet => ((heroGet ctx db.hero).1, { db with hero := (heroGet ctx db.hero).2 })
  | .heroPost body =>
    ((heroPost ctx body db.hero).1, { db with hero := (heroPost ctx body db.hero).2 })
  | .login body => (login ctx body, db)
  | .crud c r =>
    ((createCrudEndpoints c.model ctx r (db.get c)).1,
      db.set c (createCrudEndpoints c.model ctx r (db.get c)).2)

/-- One collection after a sequence of requests to its router, starting
empty; each request comes with what it sees of the world. -/
def crudRun (model : Model) (calls : List (Ctx × CrudReq)) : Store :=
  calls.foldl (fun st c => (createCrudEndpoints model c.1 c.2 st).2) []

/-- One call to the hero endpoints, with what it sees of the world. -/
inductive HeroCall where
  | get (ctx : Ctx) : HeroCall
  | set (ctx : Ctx) (body : FieldMap) : HeroCall

/-- The hero collection after one call. -/
def heroStep (st : Store) : HeroCall → Store
  | .get ctx => (heroGet ctx st).2
  | .set ctx body => (heroPost ctx body st).2

/-- The hero collection after a sequence of calls, starting from `st`. -/
def heroRunFrom (st : Store) (calls : List HeroCall) : Store := calls.foldl heroStep st

/-- The hero collection after a sequence of calls, starting empty. -/
def heroRun (calls : List HeroCall) : Store := heroRunFrom [] calls

/-- Whether a call made on the collection `st` is a Set answered 200. -/
def HeroCall.isSetOk (st : Store) : HeroCall → Bool
  | .get _ => false
  | .set ctx body => (heroPost ctx body st).1.status == 200

/-- Whether some Set of a sequence of calls, made from `st` on, is answered
200. -/
def anySetOk : Store → List HeroCall → Bool
  | _, [] => false
  | st, c :: cs => c.isSetOk st || anySetOk (heroStep st c) cs

/-- The value a created document is to hold under `k`, stated field by
field: the submitted value cast to the declared type for a declared field
the body names, the empty array for a declared `[String]` field it does not
name, nothing otherwise. -/
def createdValue (s : Schema) (eng : Engine) (body : FieldMap) (k : String) : Option JsVal :=
  match s.typeOf k, getField body k with
  | some t, some v => castValue eng t v
  | some .stringArray, none => some (.arr [])
  | _, _ => none

/-- The value an updated document is to hold under `k`, stated field by
field: the submitted value cast to the declared type for a declared field
the body names, the value `old` it had before otherwise. -/
def updatedValue (s : Schema) (eng : Engine) (body : FieldMap) (old : Option JsVal)
    (k : String) : Option JsVal :=
  match s.typeOf k, getField body k with
  | some t, some v => castValue eng t v
  | _, _ => old

/-- An engine that refuses whatever the model leaves to it; it serves to
evaluate the model at requests the model settles by itself. -/
def Engine.refusing : Engine :=
  { cast := fun _ _ => none
    castDate := fun _ => .invalid
    create := fun _ _ _ => none
    update := fun _ _ _ => none }

/-- A request context with no store fault, the refusing engine and the
refusal message `refused`. -/
def Ctx.basic (pw : Option String) (now : Int) (newId : Nat) : Ctx :=
  { ADMIN_PASSWORD := pw, now := now, fault := none, newId := newId, refusal := "refused",
    engine := Engine.refusing }

/-! ## Lemmas about field-maps -/

theorem lookup_filter_key (q : String → Bool) (fm : FieldMap) (k : String) :
    (fm.filter (fun p => q p.1)).lookup k = if q k then fm.lookup k else none := by
  induction fm with
  | nil => simp [List.lookup]
  | cons p ps ih =>
    obtain ⟨a, b⟩ := p
    by_cases hk : k = a
    · subst hk
      cases hq : q k
      · simp only [List.filter_cons, hq, Bool.false_eq_true, if_false]
        rw [ih]
        simp [hq]
      · simp [List.filter_cons, hq, List.lookup]
    · have hka : (k == a) = false := by simpa using hk
      cases hq : q a
      · simp only [List.filter_cons, hq, Bool.false_eq_true, if_false, List.lookup, hka]
        exact ih
      · simp only [List.filter_cons, hq, if_true, List.lookup, hka]
        exact ih

theorem getField_setField (k k' : String) (w : JsVal) (fm : FieldMap) :
    getField (setField k w fm) k' = if k' = k then some w else getField fm k' := by
  unfold getField setField
  by_cases h : k' = k
  · subst h; simp [List.lookup]
  · have hne : (k' == k) = false := by simpa using h
    simp only [List.lookup, hne, h, if_false]
    rw [lookup_filter_key (fun a => a != k)]
    simp [h]

theorem getField_unsetField (k k' : String) (fm : FieldMap) :
    getField (unsetField k fm) k' = if k' = k then none else getField fm k' := by
  unfold getField unsetField
  rw [lookup_filter_key (fun a => a != k)]
  by_cases h : k' = k <;> simp [h]

theorem getField_applySets (cs fm : FieldMap) (k : String) :
    getField (applySets cs fm) k =
      match cs.lookup k with
      | some w => some w
      | none => getField fm k := by
  induction cs with
  | nil => simp [applySets, List.lookup]
  | cons p ps ih =>
    obtain ⟨a, b⟩ := p
    have hstep : applySets ((a, b) :: ps) fm = setField a b (applySets ps fm) := rfl
    rw [hstep, getField_setField]
    by_cases hk : k = a
    · subst hk; simp [List.lookup]
    · have hka : (k == a) = false := by simpa using hk
      simp only [hk, if_false, List.lookup, hka]
      exact ih

theorem getField_unsets (us : List String) (fm : FieldMap) (k : String) :
    getField (us.foldr unsetField fm) k = if k ∈ us then none else getField fm k := by
  induction us with
  | nil => simp
  | cons u us ih =>
    simp only [List.foldr_cons, getField_unsetField, List.mem_cons]
    by_cases hk : k = u
    · simp [hk]
    · simp [hk, ih]

theorem castSets_lookup (s : Schema) (eng : Engine) (sets cs : FieldMap) (k : String)
    (h : castSets s eng sets = some cs) :
    cs.lookup k =
      match s.typeOf k, sets.lookup k with
      | some t, some v => castValue eng t v
      | _, _ => none := by
  induction sets generalizing cs with
  | nil =>
    simp only [castSets, Option.some.injEq] at h
    subst h
    cases s.typeOf k <;> simp [List.lookup]
  | cons p ps ih =>
    obtain ⟨a, v⟩ := p
    simp only [castSets] at h
    cases hrest : castSets s eng ps with
    | none => simp [hrest] at h
    | some cs' =>
      simp only [hrest] at h
      have ih' := ih cs' hrest
      cases hta : s.typeOf a with
      | none =>
        simp only [hta, Option.some.injEq] at h
        subst h
        by_cases hk : k = a
        · subst hk
          rw [ih', hta]
        · have hka : (k == a) = false := by simpa using hk
          rw [ih']
          simp [List.lookup, hka]
      | some t =>
        simp only [hta] at h
        cases hc : castValue eng t v with
        | none => simp [hc] at h
        | some w =>
          simp only [hc, Option.some.injEq] at h
          subst h
          by_cases hk : k = a
          · subst hk
            simp [List.lookup, hta, hc]
          · have hka : (k == a) = false := by simpa using hk
            simp only [List.lookup, hka]
            rw [ih']

theorem lookup_filterMap_key (g : String → Option JsVal) (l : List (String × SchemaType))
    (k : String) :
    (l.filterMap (fun p => (g p.1).map (fun v => (p.1, v)))).lookup k =
      if (l.lookup k).isSome then g k else none := by
  induction l with
  | nil => simp [List.lookup]
  | cons p ps ih =>
    obtain ⟨a, t⟩ := p
    by_cases hk : k = a
    · subst hk
      cases hg : g k with
      | none =>
        simp only [List.filterMap_cons, hg, Option.map_none', List.lookup, beq_self_eq_true]
        rw [ih]
        simp [hg]
      | some v => simp [List.filterMap_cons, hg, List.lookup]
    · have hka : (k == a) = false := by simpa using hk
      cases hg : g a with
      | none => simp only [List.filterMap_cons, hg, Option.map_none', List.lookup, hka]; exact ih
      | some v =>
        simp only [List.filterMap_cons, hg, Option.map_some', List.lookup, hka]; exact ih

theorem getField_defaults (s : Schema) (k : String) :
    getField (defaults s) k =
      match s.typeOf k with
      | some .stringArray => some (.arr [])
      | _ => none := by
  have hd : defaults s = s.definition.filterMap (fun p =>
      ((match s.typeOf p.1 with
        | some .stringArray => some (JsVal.arr [])
        | _ => none) : Option JsVal).map (fun v => (p.1, v))) := by
    unfold defaults
    congr 1
    funext p
    cases h : s.typeOf p.1 with
    | none => rfl
    | some t => cases t <;> rfl
  unfold getField
  rw [hd, lookup_filterMap_key (fun k => match s.typeOf k with
      | some .stringArray => some (JsVal.arr [])
      | _ => none)]
  unfold Schema.typeOf
  cases h : s.definition.lookup k with
  | none => simp
  | some t => cases t <;> simp

theorem castSets_cast (s : Schema) (eng : Engine) (sets cs : FieldMap) (k : String)
    (t : SchemaType) (v : JsVal) (h : castSets s eng sets = some cs) (ht : s.typeOf k = some t)
    (hv : sets.lookup k = some v) : ∃ w, castValue eng t v = some w := by
  induction sets generalizing cs with
  | nil => simp [List.lookup] at hv
  | cons p ps ih =>
    obtain ⟨a, u⟩ := p
    simp only [castSets] at h
    cases hrest : castSets s eng ps with
    | none => simp [hrest] at h
    | some cs' =>
      simp only [hrest] at h
      by_cases hk : k = a
      · subst hk
        simp only [List.lookup, beq_self_eq_true, Option.some.injEq] at hv
        subst hv
        simp only [ht] at h
        cases hc : castValue eng t u with
        | none => simp [hc] at h
        | some w => exact ⟨w, rfl⟩
      · have hka : (k == a) = false := by simpa using hk
        simp only [List.lookup, hka] at hv
        exact ih cs' hrest hv

theorem created_fields (s : Schema) (eng : Engine) (body cs : FieldMap) (k : String)
    (h : castSets s eng body = some cs) :
    getField (applySets cs (defaults s)) k = createdValue s eng body k := by
  rw [getField_applySets, castSets_lookup s eng body cs k h, getField_defaults]
  unfold createdValue getField
  cases ht : s.typeOf k with
  | none => rfl
  | some t =>
    cases hv : body.lookup k with
    | none => cases t <;> rfl
    | some v =>
      obtain ⟨w, hw⟩ := castSets_cast s eng body cs k t v h ht hv
      simp [hw]

theorem updated_fields (s : Schema) (eng : Engine) (body cs old : FieldMap) (k : String)
    (h : castSets s eng body = some cs) :
    getField (applySets cs old) k = updatedValue s eng body (getField old k) k := by
  rw [getField_applySets, castSets_lookup s eng body cs k h]
  unfold updatedValue
  cases ht : s.typeOf k with
  | none => rfl
  | some t =>
    cases hv : getField body k with
    | none =>
      have : body.lookup k = none := hv
      simp [this]
    | some v =>
      have hv' : body.lookup k = some v := hv
      obtain ⟨w, hw⟩ := castSets_cast s eng body cs k t v h ht hv'
      simp [hv', hw]

theorem plain_ne_operator (k : String) (h : isPlainName k = true) :
    k ≠ "$set" ∧ k ≠ "$unset" ∧ k ≠ "createdAt" := by
  refine ⟨?_, ?_, ?_⟩ <;>
  · intro hk
    subst hk
    revert h
    decide

theorem lookup_absent (fm : FieldMap) (k : String) (h : ∀ p ∈ fm, p.1 ≠ k) :
    fm.lookup k = none := by
  induction fm with
  | nil => rfl
  | cons p ps ih =>
    obtain ⟨a, b⟩ := p
    have ha : a ≠ k := h (a, b) (List.mem_cons_self _ _)
    have hka : (k == a) = false := by simpa using fun h' : k = a => ha h'.symm
    simp only [List.lookup, hka]
    exact ih (fun p hp => h p (List.mem_cons_of_mem _ hp))

theorem readUpdate_plain (body : FieldMap) (h : body.all (fun p => isPlainName p.1) = true) :
    readUpdate body = some (body, []) := by
  have hall : ∀ p ∈ body, isPlainName p.1 = true := by simpa using h
  have hfilter : body.filter (fun p => p.1 != "$set" && p.1 != "$unset") = body := by
    rw [List.filter_eq_self]
    intro p hp
    obtain ⟨h1, h2, _⟩ := plain_ne_operator p.1 (hall p hp)
    simp [h1, h2]
  have hset : body.lookup "$set" = none :=
    lookup_absent body _ (fun p hp => (plain_ne_operator p.1 (hall p hp)).1)
  have hunset : body.lookup "$unset" = none :=
    lookup_absent body _ (fun p hp => (plain_ne_operator p.1 (hall p hp)).2.1)
  unfold readUpdate
  rw [hfilter, hset, hunset]
  simp [operand, h]

theorem castUpdate_plain (s : Schema) (ctx : Ctx) (body cs : FieldMap)
    (h : body.all (fun p => isPlainName p.1) = true)
    (hc : castSets s ctx.engine body = some cs) :
    castUpdate s ctx body = some (fun d => some
      { d with
        fields := applySets cs d.fields
        updatedAt := if s.timestamps then some ctx.now else d.updatedAt }) := by
  unfold castUpdate
  rw [readUpdate_plain body h]
  simp [hc]

/-! ## Lemmas about the store operations -/

theorem findById_absent (id : Nat) (st : Store) (h : ∀ d ∈ st, d._id ≠ id) :
    findById id st = none := by
  unfold findById
  rw [List.find?_eq_none]
  intro d hd
  simpa using h d hd

theorem findById_present (id : Nat) (st : Store) (d : Doc) (hd : d ∈ st) (hid : d._id = id)
    (hu : (st.map Doc._id).Nodup) : findById id st = some d := by
  unfold findById
  induction st with
  | nil => simp at hd
  | cons a as ih =>
    simp only [List.map_cons, List.nodup_cons, List.mem_map, not_exists, not_and] at hu
    by_cases ha : a._id = id
    · have hda : d = a := by
        rcases List.mem_cons.1 hd with h | h
        · exact h
        · exact absurd (hid.trans ha.symm) (hu.1 d h)
      subst hda
      simp [List.find?, ha]
    · have hdas : d ∈ as := by
        rcases List.mem_cons.1 hd with h | h
        · subst h; exact absurd hid ha
        · exact h
      have hb : (a._id == id) = false := by simpa using ha
      simp only [List.find?, hb]
      exact ih hdas hu.2

theorem findById_some (id : Nat) (st : Store) (d : Doc) (h : findById id st = some d) :
    d ∈ st ∧ d._id = id := by
  unfold findById at h
  exact ⟨List.mem_of_find?_eq_some h, by simpa using List.find?_some h⟩

theorem replaceById_ids (id : Nat) (d' : Doc) (hid : d'._id = id) (st : Store) :
    (replaceById id d' st).map Doc._id = st.map Doc._id := by
  induction st with
  | nil => rfl
  | cons d ds ih =>
    by_cases hd : d._id = id
    · simp [replaceById, hd, hid]
    · simp [replaceById, hd, ih]

theorem replaceById_present (id : Nat) (d' : Doc) (st : Store) (d : Doc) (hd : d ∈ st)
    (hid : d._id = id) (hu : (st.map Doc._id).Nodup) :
    d' ∈ replaceById id d' st ∧ (replaceById id d' st).length = st.length ∧
      (∀ e ∈ st, e._id ≠ id → e ∈ replaceById id d' st) ∧
      (∀ e ∈ replaceById id d' st, e = d' ∨ (e ∈ st ∧ e._id ≠ id)) := by
  induction st with
  | nil => simp at hd
  | cons a as ih =>
    simp only [List.map_cons, List.nodup_cons, List.mem_map, not_exists, not_and] at hu
    by_cases ha : a._id = id
    · simp only [replaceById, ha, if_true]
      refine ⟨List.mem_cons_self _ _, rfl, ?_, ?_⟩
      · intro e he hne
        rcases List.mem_cons.1 he with h | h
        · subst h; exact absurd ha hne
        · exact List.mem_cons_of_mem _ h
      · intro e he
        rcases List.mem_cons.1 he with h | h
        · exact Or.inl h
        · refine Or.inr ⟨List.mem_cons_of_mem _ h, ?_⟩
          intro heq
          exact hu.1 e h (heq.trans ha.symm)
    · have hdas : d ∈ as := by
        rcases List.mem_cons.1 hd with h | h
        · subst h; exact absurd hid ha
        · exact h
      obtain ⟨h2, h3, h4, h5⟩ := ih hdas hu.2
      simp only [replaceById, ha, if_false]
      refine ⟨List.mem_cons_of_mem _ h2, ?_, ?_, ?_⟩
      · simp only [List.length_cons, h3]
      · intro e he hne
        rcases List.mem_cons.1 he with h | h
        · subst h; exact List.mem_cons_self _ _
        · exact List.mem_cons_of_mem _ (h4 e h hne)
      · intro e he
        rcases List.mem_cons.1 he with h | h
        · subst h; exact Or.inr ⟨List.mem_cons_self _ _, ha⟩
        · rcases h5 e h with h' | h'
          · exact Or.inl h'
          · exact Or.inr ⟨List.mem_cons_of_mem _ h'.1, h'.2⟩

theorem deleteById_absent (id : Nat) (st : Store)
    (h : ∀ d ∈ st, d._id ≠ id) : deleteById id st = (none, st) := by
  induction st with
  | nil => rfl
  | cons d ds ih =>
    have hd : d._id ≠ id := h d (List.mem_cons_self _ _)
    have := ih (fun e he => h e (List.mem_cons_of_mem _ he))
    simp [deleteById, hd, this]

theorem deleteById_present (id : Nat) (st : Store) (d : Doc) (hd : d ∈ st) (hid : d._id = id)
    (hu : (st.map Doc._id).Nodup) :
    (deleteById id st).1 = some d ∧ (∀ e ∈ (deleteById id st).2, e._id ≠ id) ∧
      (∀ e ∈ (deleteById id st).2, e ∈ st) ∧
      (∀ e ∈ st, e._id ≠ id → e ∈ (deleteById id st).2) ∧
      (deleteById id st).2.length + 1 = st.length := by
  induction st with
  | nil => simp at hd
  | cons a as ih =>
    simp only [List.map_cons, List.nodup_cons, List.mem_map, not_exists, not_and] at hu
    by_cases ha : a._id = id
    · have hda : d = a := by
        rcases List.mem_cons.1 hd with h | h
        · exact h
        · exact absurd (hid.trans ha.symm) (hu.1 d h)
      subst hda
      simp only [deleteById, ha, if_true]
      refine ⟨trivial, ?_, ?_, ?_, rfl⟩
      · intro e he heq
        exact hu.1 e he (heq.trans hid.symm)
      · intro e he
        exact List.mem_cons_of_mem _ he
      · intro e he hne
        rcases List.mem_cons.1 he with h | h
        · subst h; exact absurd hid hne
        · exact h
    · have hdas : d ∈ as := by
        rcases List.mem_cons.1 hd with h | h
        · subst h; exact absurd hid ha
        · exact h
      obtain ⟨h1, h2, h3, h4, h5⟩ := ih hdas hu.2
      simp only [deleteById, ha, if_false]
      refine ⟨h1, ?_, ?_, ?_, ?_⟩
      · intro e he
        rcases List.mem_cons.1 he with h | h
        · subst h; exact ha
        · exact h2 e h
      · intro e he
        rcases List.mem_cons.1 he with h | h
        · subst h; exact List.mem_cons_self _ _
        · exact List.mem_cons_of_mem _ (h3 e h)
      · intro e he hne
        rcases List.mem_cons.1 he with h | h
        · subst h; exact List.mem_cons_self _ _
        · exact List.mem_cons_of_mem _ (h4 e h hne)
      · simp only [List.length_cons]; omega

theorem deleteById_sublist (id : Nat) (st : Store) : List.Sublist (deleteById id st).2 st := by
  induction st with
  | nil => exact List.Sublist.slnil
  | cons d ds ih =>
    by_cases hd : d._id = id
    · simp [deleteById, hd]
    · simpa [deleteById, hd] using ih

theorem sorted_perm (st : Store) :
    (st.insertionSort recentFirst).Perm st ∧
      (st.insertionSort recentFirst).Pairwise recentFirst :=
  ⟨List.perm_insertionSort recentFirst st, List.sorted_insertionSort recentFirst st⟩

theorem dateLe_refl (x : Option Int) : dateLe x x = true := by
  cases x <;> simp [dateLe]

theorem newest_first (st : Store) (d : Doc)
    (h : ∀ e ∈ st, dateLt e.createdAt d.createdAt = true) :
    ∃ rest, (st ++ [d]).insertionSort recentFirst = d :: rest := by
  obtain ⟨hp, hs⟩ := sorted_perm (st ++ [d])
  have hmem : ∀ e, e ∈ (st ++ [d]).insertionSort recentFirst ↔ e ∈ st ++ [d] :=
    fun e => hp.mem_iff
  cases hl : (st ++ [d]).insertionSort recentFirst with
  | nil =>
    have := (hmem d).2 (by simp)
    rw [hl] at this
    simp at this
  | cons a rest =>
    rw [hl] at hs
    have ha : a ∈ st ++ [d] := (hmem a).1 (by rw [hl]; exact List.mem_cons_self _ _)
    rcases List.mem_append.1 ha with h1 | h1
    · have hlt := h a h1
      have hdm : d ∈ a :: rest := by rw [← hl]; exact (hmem d).2 (by simp)
      exfalso
      rcases List.mem_cons.1 hdm with h2 | h2
      · subst h2
        simp [dateLt, dateLe_refl] at hlt
      · have hr : recentFirst a d := List.rel_of_pairwise_cons hs h2
        unfold recentFirst at hr
        simp [dateLt, hr] at hlt
    · simp only [List.mem_singleton] at h1
      subst h1
      exact ⟨rest, rfl⟩

theorem crudPost_created (model : Model) (ctx : Ctx) (body : FieldMap) (st st' : Store)
    (d : Doc)
    (h : createCrudEndpoints model ctx (.post body) st = (⟨201, .item d⟩, st')) :
    ctx.fault = none ∧ ∃ dr, newDoc model.schema ctx body = some dr ∧
      d = completeDraft model.schema ctx dr ∧ (∀ e ∈ st, e._id ≠ d._id) ∧ st' = st ++ [d] := by
  simp only [createCrudEndpoints, crudPost, save, settle] at h
  cases hf : ctx.fault with
  | some m => simp [hf] at h
  | none =>
    simp only [hf] at h
    cases hn : newDoc model.schema ctx body with
    | none => simp [hn] at h
    | some dr =>
      simp only [hn] at h
      by_cases hany : st.any (fun e => e._id == (completeDraft model.schema ctx dr)._id) = true
      · simp [hany] at h
      · simp only [hany, Bool.false_eq_true, if_false, Prod.mk.injEq, Response.mk.injEq,
          Body.item.injEq, true_and] at h
        obtain ⟨hd, hst⟩ := h
        subst hd
        refine ⟨rfl, dr, rfl, rfl, ?_, hst.symm⟩
        intro e he heq
        apply hany
        rw [List.any_eq_true]
        exact ⟨e, he, by simpa using heq⟩

theorem newDoc_plain (s : Schema) (ctx : Ctx) (body : FieldMap) (dr : Draft)
    (hall : body.all (fun p => isPlainName p.1 || p.1 == "createdAt") = true)
    (h : newDoc s ctx body = some dr) :
    dr._id = none ∧
    (∃ cs, castSets s ctx.engine body = some cs ∧ dr.fields = applySets cs (defaults s)) ∧
    (getField body "createdAt" = none → dr.createdAt = none) ∧
    (∀ t, s.timestamps = true → getField body "createdAt" = some (.num t) →
      -8640000000000000 ≤ t → t ≤ 8640000000000000 → dr.createdAt = some t) := by
  unfold newDoc at h
  rw [if_pos hall] at h
  cases hc : castSets s ctx.engine body with
  | none => simp [hc] at h
  | some cs =>
    simp only [hc] at h
    cases hts : s.timestamps with
    | false =>
      simp only [hts, Bool.false_eq_true, if_false, Option.some.injEq] at h
      subst h
      exact ⟨rfl, ⟨cs, rfl, rfl⟩, fun _ => rfl, fun t ht => by simp at ht⟩
    | true =>
      simp only [hts, if_true] at h
      cases hb : body.lookup "createdAt" with
      | none =>
        simp only [hb, Option.some.injEq] at h
        subst h
        refine ⟨rfl, ⟨cs, rfl, rfl⟩, fun _ => rfl, ?_⟩
        intro t _ hg
        unfold getField at hg
        rw [hb] at hg
        simp at hg
      | some v =>
        simp only [hb] at h
        cases hcd : castDate ctx.engine v with
        | nullish =>
          simp only [hcd, Option.some.injEq] at h
          subst h
          refine ⟨rfl, ⟨cs, rfl, rfl⟩, fun _ => rfl, ?_⟩
          intro t _ hg h1 h2
          unfold getField at hg
          rw [hb] at hg
          simp only [Option.some.injEq] at hg
          subst hg
          simp [castDate, h1, h2] at hcd
        | invalid => simp [hcd] at h
        | date t0 =>
          simp only [hcd, Option.some.injEq] at h
          subst h
          refine ⟨rfl, ⟨cs, rfl, rfl⟩, ?_, ?_⟩
          · intro hg
            unfold getField at hg
            rw [hb] at hg
            simp at hg
          · intro t _ hg h1 h2
            unfold getField at hg
            rw [hb] at hg
            simp only [Option.some.injEq] at hg
            subst hg
            simp only [castDate, h1, h2, and_self, if_true, DateCast.date.injEq] at hcd
            simp [hcd]

/-! ## Login -/

/-- C1: with the secret configured as `s`, POST /api/login answers 200 with
`{success: true, message: 'Login berhasil'}` when the submitted password is
exactly the string `s`, and 401 with `{success: false, message: 'Password
salah'}` otherwise; the store is left as it was, and the response is the
same for any other request, clock, store outcome and store contents with the
same password and secret. -/
theorem login_accepts_exactly_the_secret (ctx : Ctx) (s : String) (body : FieldMap) (db : Db)
    (hs : ctx.ADMIN_PASSWORD = some s) :
    (getField body "password" = some (.str s) →
        (app ctx (.login body) db).1 =
          ⟨200, .object [("success", .bool true), ("message", .str "Login berhasil")]⟩) ∧
    (getField body "password" ≠ some (.str s) →
        (app ctx (.login body) db).1 =
          ⟨401, .object [("success", .bool false), ("message", .str "Password salah")]⟩) ∧
    (app ctx (.login body) db).2 = db ∧
    (∀ (ctx' : Ctx) (body' : FieldMap) (db' : Db), ctx'.ADMIN_PASSWORD = some s →
        getField body' "password" = getField body "password" →
        (app ctx' (.login body') db').1 = (app ctx (.login body) db).1) := by
  refine ⟨?_, ?_, rfl, ?_⟩
  · intro hp
    simp [app, login, hs, hp, strictEq]
  · intro hp
    have hne : strictEq (getField body "password") (some s) = false := by
      cases hb : getField body "password" with
      | none => rfl
      | some v =>
        cases v with
        | str p =>
          have : p ≠ s := by
            intro h
            exact hp (by rw [hb, h])
          simp [strictEq, this]
        | _ => rfl
    simp [app, login, hs, hne]
  · intro ctx' body' db' hs' hb
    simp [app, login, hs, hs', hb]

/-- Witness for C1: the configured secret `rahasia` submitted as is. -/
theorem login_accepts_exactly_the_secret_witness :
    (Ctx.basic (some "rahasia") 0 1).ADMIN_PASSWORD = some "rahasia" ∧
    getField [("password", .str "rahasia")] "password" = some (.str "rahasia") ∧
    (app (Ctx.basic (some "rahasia") 0 1) (.login [("password", .str "rahasia")]) Db.empty).1 =
      ⟨200, .object [("success", .bool true), ("message", .str "Login berhasil")]⟩ :=
  ⟨rfl, rfl,
    (login_accepts_exactly_the_secret (Ctx.basic (some "rahasia") 0 1) "rahasia"
      [("password", .str "rahasia")] Db.empty rfl).1 rfl⟩

/-- C10 (evaluation of the code at the failing input): with ADMIN_PASSWORD
unset, a login request whose body has no `password` field is answered 200
with `success: true`, whatever the clock, the store outcome and the store
contents. -/
theorem login_unset_secret_succeeds (ctx : Ctx) (db : Db) :
    (app { ctx with ADMIN_PASSWORD := none } (.login []) db).1 =
      ⟨200, .object [("success", .bool true), ("message", .str "Login berhasil")]⟩ := by
  rfl

/-! ## The endpoint factory -/

/-- C2: in a collection whose identifiers are unique, and when the store
call does not reject: DELETE of an identifier no document carries answers
404 with `{message: 'Item tidak ditemukan'}` and leaves the collection as it
was; DELETE of an identifier some document carries answers 200 with
`{message: 'Item berhasil dihapus'}`, and the next list holds no document
with that identifier, every other document of the collection, and nothing
else. -/
theorem delete_by_id (model : Model) (ctx ctx' : Ctx) (id : Nat) (st : Store)
    (hf : ctx.fault = none) (hf' : ctx'.fault = none) (hu : (st.map Doc._id).Nodup) :
    ((∀ d ∈ st, d._id ≠ id) →
        createCrudEndpoints model ctx (.delete id) st =
          (⟨404, messageBody "Item tidak ditemukan"⟩, st)) ∧
    ((∃ d ∈ st, d._id = id) →
        (createCrudEndpoints model ctx (.delete id) st).1 =
          ⟨200, messageBody "Item berhasil dihapus"⟩ ∧
        ∃ items,
          (createCrudEndpoints model ctx' .get
              (createCrudEndpoints model ctx (.delete id) st).2).1 =
            ⟨200, .items items⟩ ∧
          (∀ e ∈ items, e._id ≠ id) ∧ (∀ e ∈ st, e._id ≠ id → e ∈ items) ∧
          (∀ e ∈ items, e ∈ st)) := by
  constructor
  · intro h
    simp [createCrudEndpoints, crudDelete, findByIdAndDelete, settle, hf,
      deleteById_absent id st h]
  · rintro ⟨d, hd, hid⟩
    obtain ⟨h1, h2, h3, h4, _⟩ := deleteById_present id st d hd hid hu
    have hdel : createCrudEndpoints model ctx (.delete id) st =
        (⟨200, messageBody "Item berhasil dihapus"⟩, (deleteById id st).2) := by
      simp only [createCrudEndpoints, crudDelete, findByIdAndDelete, settle, hf]
      rw [show deleteById id st = (some d, (deleteById id st).2) from Prod.ext h1 rfl]
    rw [hdel]
    refine ⟨rfl, ((deleteById id st).2).insertionSort recentFirst, ?_, ?_, ?_, ?_⟩
    · simp [createCrudEndpoints, crudGet, find_sort, settle, hf']
    · intro e he
      exact h2 e ((sorted_perm _).1.mem_iff.1 he)
    · intro e he hne
      exact (sorted_perm _).1.mem_iff.2 (h4 e he hne)
    · intro e he
      exact h3 e ((sorted_perm _).1.mem_iff.1 he)

/-- Witness for C2: deleting identifier 1 from a two-document collection. -/
theorem delete_by_id_witness :
    (Ctx.basic none 30 3).fault = none ∧
    (([⟨1, [("name", .str "Go")], some 10, some 10⟩,
        ⟨2, [("name", .str "Rust")], some 20, some 20⟩] : Store).map Doc._id).Nodup ∧
    (createCrudEndpoints Skill (Ctx.basic none 30 3) (.delete 1)
      [⟨1, [("name", .str "Go")], some 10, some 10⟩,
        ⟨2, [("name", .str "Rust")], some 20, some 20⟩]).1 =
      ⟨200, messageBody "Item berhasil dihapus"⟩ :=
  ⟨rfl, by decide,
    ((delete_by_id Skill (Ctx.basic none 30 3) (Ctx.basic none 30 3) 1
      [⟨1, [("name", .str "Go")], some 10, some 10⟩,
        ⟨2, [("name", .str "Rust")], some 20, some 20⟩]
      rfl rfl (by decide)).2 ⟨⟨1, [("name", .str "Go")], some 10, some 10⟩, by simp, rfl⟩).1⟩

/-- C3 (counterexample): on a skills collection holding one document created
at time 10, a POST whose body supplies `createdAt: 5`, made at clock reading
20, is answered 201 with a document created at 5, and the next list has that
document last, not first; and a POST without `createdAt` made at clock
reading 10, the creation time of the old document, is listed after the old
document as well. -/
theorem created_document_not_listed_first :
    createCrudEndpoints Skill (Ctx.basic none 20 2)
        (.post [("name", .str "Old"), ("createdAt", .num 5)])
        [⟨1, [("name", .str "Go")], some 10, some 10⟩] =
      (⟨201, .item ⟨2, [("name", .str "Old")], some 5, some 5⟩⟩,
        [⟨1, [("name", .str "Go")], some 10, some 10⟩,
          ⟨2, [("name", .str "Old")], some 5, some 5⟩]) ∧
    (createCrudEndpoints Skill (Ctx.basic none 20 2) .get
        [⟨1, [("name", .str "Go")], some 10, some 10⟩,
          ⟨2, [("name", .str "Old")], some 5, some 5⟩]).1 =
      ⟨200, .items [⟨1, [("name", .str "Go")], some 10, some 10⟩,
        ⟨2, [("name", .str "Old")], some 5, some 5⟩]⟩ ∧
    createCrudEndpoints Skill (Ctx.basic none 10 2) (.post [("name", .str "Rust")])
        [⟨1, [("name", .str "Go")], some 10, some 10⟩] =
      (⟨201, .item ⟨2, [("name", .str "Rust")], some 10, some 10⟩⟩,
        [⟨1, [("name", .str "Go")], some 10, some 10⟩,
          ⟨2, [("name", .str "Rust")], some 10, some 10⟩]) ∧
    (createCrudEndpoints Skill (Ctx.basic none 10 2) .get
        [⟨1, [("name", .str "Go")], some 10, some 10⟩,
          ⟨2, [("name", .str "Rust")], some 10, some 10⟩]).1 =
      ⟨200, .items [⟨1, [("name", .str "Go")], some 10, some 10⟩,
        ⟨2, [("name", .str "Rust")], some 10, some 10⟩]⟩ :=
  ⟨rfl, rfl, rfl, rfl⟩

/-- C3 (amended): when the store call does not reject, GET / answers 200
with a list that holds every document of the collection exactly once (a
permutation of the collection), in which every adjacent pair, and indeed
every pair, has the earlier element created no earlier than the later one
(a document without creation timestamp counting as earliest); and a
document just created, whatever the body and the clock, is the first
element of the next list whenever its creation timestamp is later than that
of every document already in the collection. -/
theorem list_recent_first (model : Model) (ctx : Ctx) (st : Store) (hf : ctx.fault = none) :
    ∃ items, createCrudEndpoints model ctx .get st = (⟨200, .items items⟩, st) ∧
      items.Perm st ∧
      items.Chain' (fun a b => dateLe b.createdAt a.createdAt = true) ∧
      items.Pairwise (fun a b => dateLe b.createdAt a.createdAt = true) ∧
      (∀ (ctx' : Ctx) (body : FieldMap) (d : Doc) (st' : Store),
        createCrudEndpoints model ctx' (.post body) st = (⟨201, .item d⟩, st') →
        (∀ e ∈ st, dateLt e.createdAt d.createdAt = true) →
        ∃ rest, (createCrudEndpoints model ctx .get st').1 = ⟨200, .items (d :: rest)⟩) := by
  refine ⟨st.insertionSort recentFirst, ?_, (sorted_perm st).1, ?_, (sorted_perm st).2, ?_⟩
  · simp [createCrudEndpoints, crudGet, find_sort, settle, hf]
  · exact List.Pairwise.chain' (sorted_perm st).2
  · intro ctx' body d st' hpost hnew
    obtain ⟨_, dr, _, _, _, hst⟩ := crudPost_created model ctx' body st st' d hpost
    obtain ⟨rest, hrest⟩ := newest_first st d hnew
    refine ⟨rest, ?_⟩
    simp [createCrudEndpoints, crudGet, find_sort, settle, hf, hst, hrest]

/-- Witness for C3 (amended): `{name: 'Zig'}` created at clock reading 30 in a
collection whose documents were created at 10 and 20 is listed first. -/
theorem list_recent_first_witness :
    (Ctx.basic none 30 3).fault = none ∧
    createCrudEndpoints Skill (Ctx.basic none 30 3) (.post [("name", .str "Zig")])
        [⟨1, [("name", .str "Go")], some 10, some 10⟩,
          ⟨2, [("name", .str "Rust")], some 20, some 20⟩] =
      (⟨201, .item ⟨3, [("name", .str "Zig")], some 30, some 30⟩⟩,
        [⟨1, [("name", .str "Go")], some 10, some 10⟩,
          ⟨2, [("name", .str "Rust")], some 20, some 20⟩,
          ⟨3, [("name", .str "Zig")], some 30, some 30⟩]) ∧
    ∃ rest,
      (createCrudEndpoints Skill (Ctx.basic none 30 3) .get
        [⟨1, [("name", .str "Go")], some 10, some 10⟩,
          ⟨2, [("name", .str "Rust")], some 20, some 20⟩,
          ⟨3, [("name", .str "Zig")], some 30, some 30⟩]).1 =
        ⟨200, .items (⟨3, [("name", .str "Zig")], some 30, some 30⟩ :: rest)⟩ := by
  obtain ⟨_, _, _, _, _, h5⟩ := list_recent_first Skill (Ctx.basic none 30 3)
    [⟨1, [("name", .str "Go")], some 10, some 10⟩,
      ⟨2, [("name", .str "Rust")], some 20, some 20⟩] rfl
  exact ⟨rfl, rfl, h5 (Ctx.basic none 30 3) [("name", .str "Zig")]
    ⟨3, [("name", .str "Zig")], some 30, some 30⟩ _ rfl (by decide)⟩

/-- C4 (counterexample): POST /api/skills with the body
`{name: 123, level: 5}` is answered 201 with a stored document whose `name`
is the string `'123'`, not the submitted number, and which has no `level`;
and POST /api/portfolio with `{title: 'T'}` stores `tags: []`, a field the
body did not submit. -/
theorem create_casts_and_drops_fields :
    createCrudEndpoints Skill (Ctx.basic none 20 2)
        (.post [("name", .num 123), ("level", .num 5)])
        [⟨1, [("name", .str "Go")], some 10, some 10⟩] =
      (⟨201, .item ⟨2, [("name", .str "123")], some 20, some 20⟩⟩,
        [⟨1, [("name", .str "Go")], some 10, some 10⟩,
          ⟨2, [("name", .str "123")], some 20, some 20⟩]) ∧
    getField [("name", .num 123), ("level", .num 5)] "level" = some (.num 5) ∧
    getField [("name", .str "123")] "level" = none ∧
    getField [("name", .num 123), ("level", .num 5)] "name" = some (.num 123) ∧
    getField [("name", .str "123")] "name" = some (.str "123") ∧
    (createCrudEndpoints Portfolio (Ctx.basic none 20 2) (.post [("title", .str "T")]) []).1 =
      ⟨201, .item ⟨2, [("title", .str "T"), ("tags", .arr [])], some 20, some 20⟩⟩ :=
  ⟨rfl, rfl, rfl, rfl, rfl, rfl⟩

/-- C4 (amended): for every model whose schema `createGenericSchema` builds
and every body the store accepts (POST / answered 201 with the stored
document `d`): the collection afterwards is the old one, every document as it
was, followed by `d`; the identifier of `d` is carried by no document of the
old collection; `d` has a creation timestamp; and the next list holds `d` and
every old document. For a body of plain field names (and possibly
`createdAt`), `d` holds under every name `k` the value `createdValue` gives:
the submitted value cast to the declared type for a declared field (a string
for `String` and an array of strings for `[String]` exactly as submitted),
`[]` for a declared `[String]` field the body does not name, and nothing for
a name the schema does not declare; its creation timestamp is the clock
reading when the body supplies none, and the submitted number of
milliseconds when it supplies one. -/
theorem create_appends_fresh_document (name : String)
    (definition : List (String × SchemaType)) (ctx ctx' : Ctx) (body : FieldMap)
    (st st' : Store) (d : Doc)
    (h : createCrudEndpoints ⟨name, createGenericSchema definition⟩ ctx (.post body) st =
      (⟨201, .item d⟩, st'))
    (hf' : ctx'.fault = none) :
    st' = st ++ [d] ∧
    (∀ e ∈ st, e._id ≠ d._id) ∧
    (∃ t, d.createdAt = some t) ∧
    (body.all (fun p => isPlainName p.1 || p.1 == "createdAt") = true →
      (∀ k, getField d.fields k =
        createdValue (createGenericSchema definition) ctx.engine body k) ∧
      (∀ k v, (createGenericSchema definition).typeOf k = some .string →
        getField body k = some (.str v) → getField d.fields k = some (.str v)) ∧
      (∀ k xs, (createGenericSchema definition).typeOf k = some .stringArray →
        getField body k = some (.arr xs) → xs.all JsVal.isStr = true →
        getField d.fields k = some (.arr xs)) ∧
      (∀ k, (createGenericSchema definition).typeOf k = none → getField d.fields k = none) ∧
      (getField body "createdAt" = none → d.createdAt = some ctx.now) ∧
      (∀ t, getField body "createdAt" = some (.num t) → -8640000000000000 ≤ t →
        t ≤ 8640000000000000 → d.createdAt = some t)) ∧
    (∃ items,
      (createCrudEndpoints ⟨name, createGenericSchema definition⟩ ctx' .get st').1 =
        ⟨200, .items items⟩ ∧
      d ∈ items ∧ ∀ e ∈ st, e ∈ items) := by
  obtain ⟨_, dr, hn, hd, hfresh, hst⟩ :=
    crudPost_created ⟨name, createGenericSchema definition⟩ ctx body st st' d h
  refine ⟨hst, hfresh, ⟨dr.createdAt.getD ctx.now, by rw [hd]; rfl⟩, ?_, ?_⟩
  · intro hall
    obtain ⟨_, ⟨cs, hcs, hfields⟩, hc1, hc2⟩ :=
      newDoc_plain (createGenericSchema definition) ctx body dr hall hn
    have hdf : d.fields = applySets cs (defaults (createGenericSchema definition)) := by
      rw [hd]; exact hfields
    have hval : ∀ k, getField d.fields k =
        createdValue (createGenericSchema definition) ctx.engine body k := by
      intro k
      rw [hdf]
      exact created_fields _ _ _ _ k hcs
    refine ⟨hval, ?_, ?_, ?_, ?_, ?_⟩
    · intro k v ht hb
      rw [hval k]
      simp [createdValue, ht, hb, castValue]
    · intro k xs ht hb hxs
      rw [hval k]
      simp [createdValue, ht, hb, castValue, hxs]
    · intro k ht
      rw [hval k]
      simp [createdValue, ht]
    · intro hb
      rw [hd]
      simp [completeDraft, createGenericSchema, hc1 hb]
    · intro t hb h1 h2
      rw [hd]
      simp [completeDraft, createGenericSchema, hc2 t rfl hb h1 h2]
  · refine ⟨st'.insertionSort recentFirst, ?_, ?_, ?_⟩
    · simp [createCrudEndpoints, crudGet, find_sort, settle, hf']
    · exact (sorted_perm _).1.mem_iff.2 (by rw [hst]; simp)
    · intro e he
      exact (sorted_perm _).1.mem_iff.2 (by rw [hst]; exact List.mem_append_left _ he)

/-- Witness for C4 (amended): `{name: 'Zig', level: 5}` created in a
two-document skills collection. -/
theorem create_appends_fresh_document_witness :
    createCrudEndpoints ⟨"Skill", createGenericSchema [("name", .string)]⟩ (Ctx.basic none 30 3)
        (.post [("name", .str "Zig"), ("level", .num 5)])
        [⟨1, [("name", .str "Go")], some 10, some 10⟩,
          ⟨2, [("name", .str "Rust")], some 20, some 20⟩] =
      (⟨201, .item ⟨3, [("name", .str "Zig")], some 30, some 30⟩⟩,
        [⟨1, [("name", .str "Go")], some 10, some 10⟩,
          ⟨2, [("name", .str "Rust")], some 20, some 20⟩,
          ⟨3, [("name", .str "Zig")], some 30, some 30⟩]) ∧
    (Ctx.basic none 30 3).fault = none ∧
    (∀ e ∈ ([⟨1, [("name", .str "Go")], some 10, some 10⟩,
        ⟨2, [("name", .str "Rust")], some 20, some 20⟩] : Store), e._id ≠ 3) ∧
    getField [("name", .str "Zig")] "name" = some (.str "Zig") ∧
    getField [("name", .str "Zig")] "level" = none := by
  obtain ⟨_, h2, _, h4, _⟩ := create_appends_fresh_document "Skill" [("name", .string)]
    (Ctx.basic none 30 3) (Ctx.basic none 30 3) [("name", .str "Zig"), ("level", .num 5)]
    [⟨1, [("name", .str "Go")], some 10, some 10⟩,
      ⟨2, [("name", .str "Rust")], some 20, some 20⟩] _
    ⟨3, [("name", .str "Zig")], some 30, some 30⟩ rfl rfl
  obtain ⟨_, h42, _, h44, _⟩ := h4 rfl
  exact ⟨rfl, rfl, h2, h42 "name" "Zig" rfl rfl, h44 "level" rfl⟩

/-- C5 (counterexample): on the skills document `{name: 'Go'}` created and
last modified at time 10: PUT with `{name: 123, level: 5}` stores `name` as
the string `'123'` and no `level`; PUT with `{$unset: {name: 1}}` removes
`name`, a field the body does not name, and stores no field `$unset`; and
PUT with `{name: 'Zig'}` at clock reading 10 leaves the modification
timestamp at 10. -/
theorem update_casts_unsets_and_keeps_time :
    (createCrudEndpoints Skill (Ctx.basic none 20 2) (.put 1 [("name", .num 123), ("level", .num 5)])
        [⟨1, [("name", .str "Go")], some 10, some 10⟩]).1 =
      ⟨200, .item ⟨1, [("name", .str "123")], some 10, some 20⟩⟩ ∧
    (createCrudEndpoints Skill (Ctx.basic none 20 2) (.put 1 [("$unset", .obj [("name", .num 1)])])
        [⟨1, [("name", .str "Go")], some 10, some 10⟩]).1 =
      ⟨200, .item ⟨1, [], some 10, some 20⟩⟩ ∧
    getField [("$unset", .obj [("name", .num 1)])] "name" = none ∧
    (createCrudEndpoints Skill (Ctx.basic none 10 2) (.put 1 [("name", .str "Zig")])
        [⟨1, [("name", .str "Go")], some 10, some 10⟩]).1 =
      ⟨200, .item ⟨1, [("name", .str "Zig")], some 10, some 10⟩⟩ :=
  ⟨rfl, rfl, rfl, rfl⟩

/-- C5 (amended): for every model whose schema `createGenericSchema` builds,
in a collection whose identifiers are unique, PUT /:id for the identifier of
an existing document `d`, with a body of plain field names that the store
accepts (no store fault, every cast succeeds), answers 200 with the document
after the update, which is the one now stored: under every name `k` it holds
the value `updatedValue` gives, that is the submitted value cast to the
declared type for a declared field the body names (a string for `String` and
an array of strings for `[String]` exactly as submitted) and the value `d`
had otherwise (for a field the body does not name, and for a name the schema
does not declare); identifier and creation timestamp are those of `d`; the
modification timestamp is the clock reading of the update; the collection
keeps its size, every document with another identifier is still there as it
was, and nothing else is. -/
theorem update_merges_fields (name : String) (definition : List (String × SchemaType))
    (ctx : Ctx) (id : Nat) (body : FieldMap) (st : Store) (d : Doc)
    (hf : ctx.fault = none) (hu : (st.map Doc._id).Nodup) (hd : d ∈ st) (hid : d._id = id)
    (hplain : body.all (fun p => isPlainName p.1) = true)
    (hcast : (castSets (createGenericSchema definition) ctx.engine body).isSome = true) :
    ∃ d' st',
      createCrudEndpoints ⟨name, createGenericSchema definition⟩ ctx (.put id body) st =
        (⟨200, .item d'⟩, st') ∧
      (∀ k, getField d'.fields k =
        updatedValue (createGenericSchema definition) ctx.engine body (getField d.fields k) k) ∧
      (∀ k v, (createGenericSchema definition).typeOf k = some .string →
        getField body k = some (.str v) → getField d'.fields k = some (.str v)) ∧
      (∀ k xs, (createGenericSchema definition).typeOf k = some .stringArray →
        getField body k = some (.arr xs) → xs.all JsVal.isStr = true →
        getField d'.fields k = some (.arr xs)) ∧
      (∀ k, getField body k = none → getField d'.fields k = getField d.fields k) ∧
      (∀ k, (createGenericSchema definition).typeOf k = none →
        getField d'.fields k = getField d.fields k) ∧
      d'._id = d._id ∧ d'.createdAt = d.createdAt ∧ d'.updatedAt = some ctx.now ∧
      d' ∈ st' ∧ st'.length = st.length ∧
      (∀ e ∈ st, e._id ≠ id → e ∈ st') ∧
      (∀ e ∈ st', e = d' ∨ (e ∈ st ∧ e._id ≠ id)) := by
  obtain ⟨cs, hcs⟩ := Option.isSome_iff_exists.1 hcast
  have hop := castUpdate_plain (createGenericSchema definition) ctx body cs hplain hcs
  have hfind := findById_present id st d hd hid hu
  obtain ⟨h2, h3, h4, h5⟩ := replaceById_present id
    { d with fields := applySets cs d.fields, updatedAt := some ctx.now } st d hd hid hu
  have hval : ∀ k, getField (applySets cs d.fields) k =
      updatedValue (createGenericSchema definition) ctx.engine body (getField d.fields k) k :=
    fun k => updated_fields _ _ _ _ _ k hcs
  refine ⟨{ d with fields := applySets cs d.fields, updatedAt := some ctx.now },
    replaceById id { d with fields := applySets cs d.fields, updatedAt := some ctx.now } st,
    ?_, hval, ?_, ?_, ?_, ?_, rfl, rfl, rfl, h2, h3, h4, h5⟩
  · simp only [createCrudEndpoints, crudPut, findByIdAndUpdate, settle, hf, hop, hfind, jsonDoc]
    rfl
  · intro k v ht hb
    rw [hval k]
    simp [updatedValue, ht, hb, castValue]
  · intro k xs ht hb hxs
    rw [hval k]
    simp [updatedValue, ht, hb, castValue, hxs]
  · intro k hb
    rw [hval k]
    unfold updatedValue
    rw [hb]
    cases (createGenericSchema definition).typeOf k <;> rfl
  · intro k ht
    rw [hval k]
    simp [updatedValue, ht]

/-- Witness for C5 (amended): `{name: 'Zig', level: 5}` put on document 1 of
a two-document skills collection. -/
theorem update_merges_fields_witness :
    (Ctx.basic none 30 3).fault = none ∧
    (([⟨1, [("name", .str "Go")], some 10, some 10⟩,
        ⟨2, [("name", .str "Rust")], some 20, some 20⟩] : Store).map Doc._id).Nodup ∧
    ∃ d' st',
      createCrudEndpoints ⟨"Skill", createGenericSchema [("name", .string)]⟩
          (Ctx.basic none 30 3) (.put 1 [("name", .str "Zig"), ("level", .num 5)])
          [⟨1, [("name", .str "Go")], some 10, some 10⟩,
            ⟨2, [("name", .str "Rust")], some 20, some 20⟩] =
        (⟨200, .item d'⟩, st') ∧
      getField d'.fields "name" = some (.str "Zig") ∧
      getField d'.fields "level" = none ∧
      d'.createdAt = some 10 ∧ d'.updatedAt = some 30 ∧
      ⟨2, [("name", .str "Rust")], some 20, some 20⟩ ∈ st' := by
  obtain ⟨d', st', h1, _, h3, _, _, h6, _, h8, h9, _, _, h12, _⟩ :=
    update_merges_fields "Skill" [("name", .string)] (Ctx.basic none 30 3) 1
      [("name", .str "Zig"), ("level", .num 5)]
      [⟨1, [("name", .str "Go")], some 10, some 10⟩,
        ⟨2, [("name", .str "Rust")], some 20, some 20⟩]
      ⟨1, [("name", .str "Go")], some 10, some 10⟩ rfl (by decide) (by simp) rfl rfl rfl
  exact ⟨rfl, by decide, d', st', h1, h3 "name" "Zig" rfl rfl, (h6 "level" rfl).trans rfl,
    h8, h9, h12 _ (by simp) (by decide)⟩

/-- C6: PUT /:id for an identifier no document of the collection carries
answers 200 with a `null` body, and the collection afterwards is the
collection before, whenever the store call does not reject (no store fault,
and the store takes the body, as it does every body of plain field names
whose casts succeed); and in every case the answer is either that or a 400
with `{message: m}` and the collection unchanged: never a not-found error,
never a new document. -/
theorem update_missing_answers_null (model : Model) (ctx : Ctx) (id : Nat) (body : FieldMap)
    (st : Store) (hmiss : ∀ d ∈ st, d._id ≠ id) :
    (ctx.fault = none → (castUpdate model.schema ctx body).isSome = true →
      createCrudEndpoints model ctx (.put id body) st = (⟨200, .null⟩, st)) ∧
    (ctx.fault = none → body.all (fun p => isPlainName p.1) = true →
      (castSets model.schema ctx.engine body).isSome = true →
      createCrudEndpoints model ctx (.put id body) st = (⟨200, .null⟩, st)) ∧
    (createCrudEndpoints model ctx (.put id body) st = (⟨200, .null⟩, st) ∨
      ∃ m, createCrudEndpoints model ctx (.put id body) st = (⟨400, messageBody m⟩, st)) := by
  have hfind := findById_absent id st hmiss
  have key : ctx.fault = none → (castUpdate model.schema ctx body).isSome = true →
      createCrudEndpoints model ctx (.put id body) st = (⟨200, .null⟩, st) := by
    intro hf hc
    obtain ⟨op, hop⟩ := Option.isSome_iff_exists.1 hc
    simp [createCrudEndpoints, crudPut, findByIdAndUpdate, settle, hf, hop, hfind, jsonDoc]
  refine ⟨key, ?_, ?_⟩
  · intro hf hplain hc
    obtain ⟨cs, hcs⟩ := Option.isSome_iff_exists.1 hc
    exact key hf (by rw [castUpdate_plain model.schema ctx body cs hplain hcs]; rfl)
  · cases hf : ctx.fault with
    | some m =>
      right
      exact ⟨m, by simp [createCrudEndpoints, crudPut, findByIdAndUpdate, settle, hf]⟩
    | none =>
      cases hc : castUpdate model.schema ctx body with
      | none =>
        right
        exact ⟨ctx.refusal,
          by simp [createCrudEndpoints, crudPut, findByIdAndUpdate, settle, hf, hc]⟩
      | some op =>
        left
        exact key hf (by rw [hc]; rfl)

/-- Witness for C6: updating identifier 7, which no document carries. -/
theorem update_missing_answers_null_witness :
    (∀ d ∈ ([⟨1, [("name", .str "Go")], some 10, some 10⟩] : Store), d._id ≠ 7) ∧
    (Ctx.basic none 30 3).fault = none ∧
    createCrudEndpoints Skill (Ctx.basic none 30 3) (.put 7 [("name", .str "Rust")])
      [⟨1, [("name", .str "Go")], some 10, some 10⟩] =
      (⟨200, .null⟩, [⟨1, [("name", .str "Go")], some 10, some 10⟩]) :=
  ⟨by simp, rfl,
    (update_missing_answers_null Skill (Ctx.basic none 30 3) 7 [("name", .str "Rust")]
      [⟨1, [("name", .str "Go")], some 10, some 10⟩] (by simp)).1 rfl rfl⟩

/-! ## The hero singleton -/

theorem heroGet_snd (ctx : Ctx) (st : Store) : (heroGet ctx st).2 = st := by
  cases hf : ctx.fault <;> simp [heroGet, findOne, settle, hf]

theorem heroPost_cases (ctx : Ctx) (body : FieldMap) (st : Store) :
    (∃ m, heroPost ctx body st = (⟨400, messageBody m⟩, st)) ∨
    (st = [] ∧ ∃ d, heroPost ctx body st = (⟨200, .item d⟩, [d])) ∨
    (∃ e es d', st = e :: es ∧ d'._id = e._id ∧
      heroPost ctx body st = (⟨200, .item d'⟩, d' :: es)) := by
  cases hf : ctx.fault with
  | some m => exact Or.inl ⟨m, by simp [heroPost, findOneAndUpdate, settle, hf]⟩
  | none =>
    cases hc : castUpdate Hero.schema ctx body with
    | none =>
      exact Or.inl ⟨ctx.refusal, by simp [heroPost, findOneAndUpdate, settle, hf, hc]⟩
    | some op =>
      cases st with
      | nil =>
        cases ho : op (blankDoc Hero.schema ctx) with
        | none =>
          exact Or.inl ⟨ctx.refusal, by simp [heroPost, findOneAndUpdate, settle, hf, hc, ho]⟩
        | some d' =>
          exact Or.inr (Or.inl ⟨rfl, { d' with _id := ctx.newId },
            by simp [heroPost, findOneAndUpdate, settle, hf, hc, ho]⟩)
      | cons e es =>
        cases ho : op e with
        | none =>
          exact Or.inl ⟨ctx.refusal, by simp [heroPost, findOneAndUpdate, settle, hf, hc, ho]⟩
        | some d' =>
          exact Or.inr (Or.inr ⟨e, es, { d' with _id := e._id }, rfl, rfl,
            by simp [heroPost, findOneAndUpdate, settle, hf, hc, ho]⟩)

theorem heroStep_eq_nil (st : Store) (c : HeroCall) :
    heroStep st c = [] ↔ st = [] ∧ c.isSetOk st = false := by
  cases c with
  | get ctx => simp [heroStep, heroGet_snd, HeroCall.isSetOk]
  | set ctx body =>
    rcases heroPost_cases ctx body st with ⟨m, h⟩ | ⟨_, d, h⟩ | ⟨e, es, d', _, _, h⟩ <;>
      simp [heroStep, HeroCall.isSetOk, h]

theorem heroRunFrom_eq_nil (calls : List HeroCall) (st : Store) :
    heroRunFrom st calls = [] ↔ st = [] ∧ anySetOk st calls = false := by
  induction calls generalizing st with
  | nil => simp [heroRunFrom, anySetOk]
  | cons c cs ih =>
    have hstep : heroRunFrom st (c :: cs) = heroRunFrom (heroStep st c) cs := rfl
    rw [hstep, ih, heroStep_eq_nil]
    simp [anySetOk, and_assoc]

theorem heroStep_length (st : Store) (c : HeroCall) (h : st.length ≤ 1) :
    (heroStep st c).length ≤ 1 := by
  cases c with
  | get ctx => simpa [heroStep, heroGet_snd] using h
  | set ctx body =>
    rcases heroPost_cases ctx body st with ⟨m, h'⟩ | ⟨_, d, h'⟩ | ⟨e, es, d', hst, _, h'⟩
    · simpa [heroStep, h'] using h
    · simp [heroStep, h']
    · subst hst
      simpa [heroStep, h'] using h

theorem heroRunFrom_length (calls : List HeroCall) (st : Store) (h : st.length ≤ 1) :
    (heroRunFrom st calls).length ≤ 1 := by
  induction calls generalizing st with
  | nil => simpa [heroRunFrom] using h
  | cons c cs ih => exact ih _ (heroStep_length st c h)

/-- C7 (counterexample): after Set `{name: 'A', highlight: 'B'}` and then
Set `{name: 'C'}`, Get returns a document whose declared field `highlight`
still holds `'B'`, a value the last Set did not mention. -/
theorem hero_set_keeps_earlier_fields :
    (heroGet (Ctx.basic none 2 1)
        (heroRun [.set (Ctx.basic none 0 1) [("name", .str "A"), ("highlight", .str "B")],
          .set (Ctx.basic none 1 1) [("name", .str "C")]])).1 =
      ⟨200, .item ⟨1, [("name", .str "C"), ("highlight", .str "B")], some 0, some 1⟩⟩ ∧
    HeroSchema.declares "highlight" = true ∧
    getField [("name", .str "C")] "highlight" = none ∧
    getField [("name", .str "C"), ("highlight", .str "B")] "highlight" = some (.str "B") := by
  refine ⟨rfl, by decide, rfl, rfl⟩

/-- C7 (amended): after any sequence of hero calls ending with a Set whose
body `fields` has plain field names and is accepted by the store (no store
fault, every cast succeeds), Get answers 200 with the single stored
document, which holds under every name `k` the value `updatedValue` gives:
for a declared field that `fields` names, the submitted value cast to its
declared type (a string exactly as submitted); for every other name (a
declared field the last Set did not name, and any name `HeroSchema` does not
declare) the value the hero document had before that Set, none when there
was no document. -/
theorem hero_get_after_set (calls : List HeroCall) (ctx ctx' : Ctx) (fields : FieldMap)
    (hf : ctx.fault = none) (hf' : ctx'.fault = none)
    (hplain : fields.all (fun p => isPlainName p.1) = true)
    (hcast : (castSets HeroSchema ctx.engine fields).isSome = true) :
    ∃ d, (heroGet ctx' (heroRun (calls ++ [.set ctx fields]))).1 = ⟨200, .item d⟩ ∧
      heroRun (calls ++ [.set ctx fields]) = d :: (heroRun calls).tail ∧
      (∀ k, getField d.fields k =
        updatedValue HeroSchema ctx.engine fields
          ((heroRun calls).head?.bind (fun e => getField e.fields k)) k) ∧
      (∀ k v, HeroSchema.typeOf k = some .string → getField fields k = some (.str v) →
        getField d.fields k = some (.str v)) ∧
      (∀ k, getField fields k = none →
        getField d.fields k = (heroRun calls).head?.bind (fun e => getField e.fields k)) ∧
      (∀ k, HeroSchema.typeOf k = none →
        getField d.fields k = (heroRun calls).head?.bind (fun e => getField e.fields k)) := by
  obtain ⟨cs, hcs⟩ := Option.isSome_iff_exists.1 hcast
  have hop := castUpdate_plain HeroSchema ctx fields cs hplain hcs
  have hrun : heroRun (calls ++ [.set ctx fields]) =
      (heroPost ctx fields (heroRun calls)).2 := by
    simp [heroRun, heroRunFrom, List.foldl_append, heroStep]
  have hcor : ∀ (d : Doc) (prev : String → Option JsVal),
      (∀ k, getField d.fields k = updatedValue HeroSchema ctx.engine fields (prev k) k) →
      (∀ k v, HeroSchema.typeOf k = some .string → getField fields k = some (.str v) →
        getField d.fields k = some (.str v)) ∧
      (∀ k, getField fields k = none → getField d.fields k = prev k) ∧
      (∀ k, HeroSchema.typeOf k = none → getField d.fields k = prev k) := by
    intro d prev hval
    refine ⟨?_, ?_, ?_⟩
    · intro k v ht hb
      rw [hval k]
      simp [updatedValue, ht, hb, castValue]
    · intro k hb
      rw [hval k]
      unfold updatedValue
      rw [hb]
      cases HeroSchema.typeOf k <;> rfl
    · intro k ht
      rw [hval k]
      simp [updatedValue, ht]
  rw [hrun]
  cases hst : heroRun calls with
  | nil =>
    have hpost : heroPost ctx fields [] =
        (⟨200, .item ⟨ctx.newId, applySets cs [], some ctx.now, some ctx.now⟩⟩,
          [⟨ctx.newId, applySets cs [], some ctx.now, some ctx.now⟩]) := by
      have hop' : castUpdate Hero.schema ctx fields = _ := hop
      simp only [heroPost, findOneAndUpdate, settle, hf, hop']
      rfl
    have hval : ∀ k, getField (applySets cs []) k =
        updatedValue HeroSchema ctx.engine fields (getField [] k) k :=
      fun k => updated_fields _ _ _ _ _ k hcs
    obtain ⟨c1, c2, c3⟩ := hcor ⟨ctx.newId, applySets cs [], some ctx.now, some ctx.now⟩
      (fun _ => none) hval
    refine ⟨⟨ctx.newId, applySets cs [], some ctx.now, some ctx.now⟩, ?_, ?_, hval, c1, c2, c3⟩
    · rw [hpost]
      simp [heroGet, findOne, settle, hf']
    · rw [hpost]
      rfl
  | cons e es =>
    have hpost : heroPost ctx fields (e :: es) =
        (⟨200, .item ⟨e._id, applySets cs e.fields, e.createdAt, some ctx.now⟩⟩,
          ⟨e._id, applySets cs e.fields, e.createdAt, some ctx.now⟩ :: es) := by
      have hop' : castUpdate Hero.schema ctx fields = _ := hop
      simp only [heroPost, findOneAndUpdate, settle, hf, hop']
      rfl
    have hval : ∀ k, getField (applySets cs e.fields) k =
        updatedValue HeroSchema ctx.engine fields (getField e.fields k) k :=
      fun k => updated_fields _ _ _ _ _ k hcs
    obtain ⟨c1, c2, c3⟩ := hcor ⟨e._id, applySets cs e.fields, e.createdAt, some ctx.now⟩
      (fun k => getField e.fields k) hval
    refine ⟨⟨e._id, applySets cs e.fields, e.createdAt, some ctx.now⟩, ?_, ?_, hval, c1, c2, c3⟩
    · rw [hpost]
      simp [heroGet, findOne, settle, hf']
    · rw [hpost]
      rfl

/-- Witness for C7 (amended): Set `{name: 'A', highlight: 'B'}` followed by
Set `{name: 5, foo: 'bar'}`: Get returns `highlight` as the earlier Set left
it, `name` as cast by the last Set, and no `foo`. -/
theorem hero_get_after_set_witness :
    (Ctx.basic none 1 1).fault = none ∧
    ([("name", .num 5), ("foo", .str "bar")] : FieldMap).all (fun p => isPlainName p.1) = true ∧
    ∃ d,
      (heroGet (Ctx.basic none 2 1)
        (heroRun ([.set (Ctx.basic none 0 1) [("name", .str "A"), ("highlight", .str "B")]] ++
          [.set (Ctx.basic none 1 1) [("name", .num 5), ("foo", .str "bar")]]))).1 =
        ⟨200, .item d⟩ ∧
      getField d.fields "highlight" = some (.str "B") ∧
      getField d.fields "name" = some (.str "5") ∧
      getField d.fields "foo" = none := by
  obtain ⟨d, h1, _, h3, _, h5, h6⟩ :=
    hero_get_after_set
      [.set (Ctx.basic none 0 1) [("name", .str "A"), ("highlight", .str "B")]]
      (Ctx.basic none 1 1) (Ctx.basic none 2 1) [("name", .num 5), ("foo", .str "bar")]
      rfl rfl rfl rfl
  exact ⟨rfl, rfl, d, h1, (h5 "highlight" rfl).trans rfl, (h3 "name").trans rfl,
    (h6 "foo" rfl).trans rfl⟩

/-- C8: the hero collection reached from the empty one by any sequence of
Get and Set calls holds at most one document; Get never changes the
collection; a Set on the empty collection either creates exactly one
document (answered 200 with it) or is rejected (400) and creates none; a Set
on a non-empty collection either updates the existing first document in
place, keeping its identifier and adding no document, or is rejected and
changes nothing; a Set with a store fault, and any Set not answered 200,
changes nothing; a Set with no store fault whose body has plain field names
and casts is answered 200; and a Get whose store call does not reject
answers 200 with `{}` exactly when no Set of the sequence was answered
200. -/
theorem hero_at_most_one (calls : List HeroCall) :
    (heroRun calls).length ≤ 1 ∧
    (∀ (ctx : Ctx) (st : Store), (heroGet ctx st).2 = st) ∧
    (∀ (ctx : Ctx) (body : FieldMap),
      (∃ d, heroPost ctx body [] = (⟨200, .item d⟩, [d])) ∨
      (∃ m, heroPost ctx body [] = (⟨400, messageBody m⟩, []))) ∧
    (∀ (ctx : Ctx) (body : FieldMap) (d : Doc) (ds : Store),
      (∃ d', d'._id = d._id ∧ heroPost ctx body (d :: ds) = (⟨200, .item d'⟩, d' :: ds)) ∨
      (∃ m, heroPost ctx body (d :: ds) = (⟨400, messageBody m⟩, d :: ds))) ∧
    (∀ (ctx : Ctx) (body : FieldMap) (st : Store), ctx.fault ≠ none →
      (heroPost ctx body st).2 = st) ∧
    (∀ (ctx : Ctx) (body : FieldMap) (st : Store), (heroPost ctx body st).1.status ≠ 200 →
      (heroPost ctx body st).2 = st) ∧
    (∀ (ctx : Ctx) (body : FieldMap) (st : Store), ctx.fault = none →
      body.all (fun p => isPlainName p.1) = true →
      (castSets HeroSchema ctx.engine body).isSome = true →
      (heroPost ctx body st).1.status = 200) ∧
    (∀ (ctx : Ctx), ctx.fault = none →
      ((heroGet ctx (heroRun calls)).1 = ⟨200, .object []⟩ ↔ anySetOk [] calls = false)) := by
  refine ⟨heroRunFrom_length calls [] (by simp), heroGet_snd, ?_, ?_, ?_, ?_, ?_, ?_⟩
  · intro ctx body
    rcases heroPost_cases ctx body [] with ⟨m, h⟩ | ⟨_, d, h⟩ | ⟨e, es, d', hst, _, _⟩
    · exact Or.inr ⟨m, h⟩
    · exact Or.inl ⟨d, h⟩
    · simp at hst
  · intro ctx body d ds
    rcases heroPost_cases ctx body (d :: ds) with ⟨m, h⟩ | ⟨hst, _, _⟩ | ⟨e, es, d', hst, hid, h⟩
    · exact Or.inr ⟨m, h⟩
    · simp at hst
    · obtain ⟨rfl, rfl⟩ := List.cons.inj hst
      exact Or.inl ⟨d', hid, h⟩
  · intro ctx body st hf
    cases hf' : ctx.fault with
    | none => exact absurd hf' hf
    | some m => simp [heroPost, findOneAndUpdate, settle, hf']
  · intro ctx body st hne
    rcases heroPost_cases ctx body st with ⟨m, h⟩ | ⟨_, d, h⟩ | ⟨e, es, d', _, _, h⟩
    · rw [h]
    · rw [h] at hne; simp at hne
    · rw [h] at hne; simp at hne
  · intro ctx body st hf hplain hc
    obtain ⟨cs, hcs⟩ := Option.isSome_iff_exists.1 hc
    have hop : castUpdate Hero.schema ctx body = _ :=
      castUpdate_plain HeroSchema ctx body cs hplain hcs
    cases st <;> simp [heroPost, findOneAndUpdate, settle, hf, hop]
  · intro ctx hf
    have hnil := heroRunFrom_eq_nil calls []
    simp only [true_and] at hnil
    rw [← hnil]
    change _ ↔ heroRun calls = []
    cases hst : heroRun calls with
    | nil => simp [heroGet, findOne, settle, hf]
    | cons d ds => simp [heroGet, findOne, settle, hf]

/-! ## Error responses -/

theorem crudPost_cases (model : Model) (ctx : Ctx) (body : FieldMap) (st : Store) :
    (∃ m, crudPost model ctx body st = (⟨400, messageBody m⟩, st)) ∨
    (∃ d, d._id ∉ st.map Doc._id ∧ crudPost model ctx body st = (⟨201, .item d⟩, st ++ [d])) := by
  cases hf : ctx.fault with
  | some m => exact Or.inl ⟨m, by simp [crudPost, save, settle, hf]⟩
  | none =>
    cases hn : newDoc model.schema ctx body with
    | none => exact Or.inl ⟨ctx.refusal, by simp [crudPost, save, settle, hf, hn]⟩
    | some dr =>
      by_cases hany : st.any (fun e => e._id == (completeDraft model.schema ctx dr)._id) = true
      · exact Or.inl ⟨ctx.refusal, by simp [crudPost, save, settle, hf, hn, hany]⟩
      · refine Or.inr ⟨completeDraft model.schema ctx dr, ?_, ?_⟩
        · intro hmem
          obtain ⟨e, he, heq⟩ := List.mem_map.1 hmem
          apply hany
          rw [List.any_eq_true]
          exact ⟨e, he, by simpa using heq⟩
        · simp only [crudPost, save, settle, hf, hn]
          rw [if_neg hany]

theorem crudPut_cases (model : Model) (ctx : Ctx) (id : Nat) (body : FieldMap) (st : Store) :
    (∃ m, crudPut model ctx id body st = (⟨400, messageBody m⟩, st)) ∨
    crudPut model ctx id body st = (⟨200, .null⟩, st) ∨
    (∃ d', d'._id = id ∧
      crudPut model ctx id body st = (⟨200, .item d'⟩, replaceById id d' st)) := by
  cases hf : ctx.fault with
  | some m => exact Or.inl ⟨m, by simp [crudPut, findByIdAndUpdate, settle, hf]⟩
  | none =>
    cases hc : castUpdate model.schema ctx body with
    | none => exact Or.inl ⟨ctx.refusal, by simp [crudPut, findByIdAndUpdate, settle, hf, hc]⟩
    | some op =>
      cases hfind : findById id st with
      | none =>
        exact Or.inr (Or.inl
          (by simp [crudPut, findByIdAndUpdate, settle, hf, hc, hfind, jsonDoc]))
      | some d =>
        cases ho : op d with
        | none =>
          exact Or.inl ⟨ctx.refusal,
            by simp [crudPut, findByIdAndUpdate, settle, hf, hc, hfind, ho]⟩
        | some d' =>
          exact Or.inr (Or.inr ⟨{ d' with _id := d._id }, (findById_some id st d hfind).2,
            by simp [crudPut, findByIdAndUpdate, settle, hf, hc, hfind, ho, jsonDoc]⟩)

theorem crud_error_body (model : Model) (ctx : Ctx) (r : CrudReq) (st : Store)
    (h : ¬ (200 ≤ (createCrudEndpoints model ctx r st).1.status ∧
      (createCrudEndpoints model ctx r st).1.status < 300)) :
    ∃ m, (createCrudEndpoints model ctx r st).1.body = messageBody m := by
  cases r with
  | get =>
    cases hf : ctx.fault with
    | none => simp [createCrudEndpoints, crudGet, find_sort, settle, hf] at h
    | some m => exact ⟨m, by simp [createCrudEndpoints, crudGet, find_sort, settle, hf]⟩
  | post body =>
    rcases crudPost_cases model ctx body st with ⟨m, hp⟩ | ⟨d, _, hp⟩
    · exact ⟨m, by simp [createCrudEndpoints, hp]⟩
    · simp [createCrudEndpoints, hp] at h
  | put id body =>
    rcases crudPut_cases model ctx id body st with ⟨m, hp⟩ | hp | ⟨d', _, hp⟩
    · exact ⟨m, by simp [createCrudEndpoints, hp]⟩
    · simp [createCrudEndpoints, hp] at h
    · simp [createCrudEndpoints, hp] at h
  | delete id =>
    cases hf : ctx.fault with
    | none =>
      cases hd : (deleteById id st).1 with
      | none =>
        refine ⟨"Item tidak ditemukan", ?_⟩
        simp only [createCrudEndpoints, crudDelete, findByIdAndDelete, settle, hf]
        rw [show deleteById id st = (none, (deleteById id st).2) from Prod.ext hd rfl]
      | some d =>
        exfalso
        apply h
        simp only [createCrudEndpoints, crudDelete, findByIdAndDelete, settle, hf]
        rw [show deleteById id st = (some d, (deleteById id st).2) from Prod.ext hd rfl]
        simp
    | some m =>
      exact ⟨m, by simp [createCrudEndpoints, crudDelete, findByIdAndDelete, settle, hf]⟩

/-- C9 (counterexample): a login with a wrong password is answered 401 with
the body `{success: false, message: 'Password salah'}`, which is no
`{message: m}`: it has the further field `success`. -/
theorem login_401_body_has_success_field :
    (app (Ctx.basic (some "rahasia") 0 1) (.login [("password", .str "salah")]) Db.empty).1 =
      ⟨401, .object [("success", .bool false), ("message", .str "Password salah")]⟩ ∧
    ¬ (200 ≤ (app (Ctx.basic (some "rahasia") 0 1) (.login [("password", .str "salah")])
        Db.empty).1.status ∧
      (app (Ctx.basic (some "rahasia") 0 1) (.login [("password", .str "salah")])
        Db.empty).1.status < 300) ∧
    ∀ m : String,
      (app (Ctx.basic (some "rahasia") 0 1) (.login [("password", .str "salah")])
        Db.empty).1.body ≠ messageBody m := by
  have h : (app (Ctx.basic (some "rahasia") 0 1) (.login [("password", .str "salah")])
      Db.empty).1 =
      ⟨401, .object [("success", .bool false), ("message", .str "Password salah")]⟩ := rfl
  refine ⟨h, ?_, ?_⟩
  · rw [h]; simp
  · intro m
    rw [h]
    simp [messageBody]

/-- C9 (amended): a store call that rejects with message `m` is caught, the
store is left as it was and the response body is exactly `{message: m}`,
with status 500 from List, Delete and Hero Get and 400 from Create, Update
and Hero Set; and every response of the application whose status is not 2xx
either has a body `{message: s}` for some string `s` (all of the CRUD and
hero handlers, the 404 of Delete included) or is the login's 401 with body
`{success: false, message: 'Password salah'}`. -/
theorem store_failure_responses (ctx : Ctx) (m : String) :
    (∀ model st,
      createCrudEndpoints model { ctx with fault := some m } .get st =
        (⟨500, messageBody m⟩, st)) ∧
    (∀ model body st,
      createCrudEndpoints model { ctx with fault := some m } (.post body) st =
        (⟨400, messageBody m⟩, st)) ∧
    (∀ model id body st,
      createCrudEndpoints model { ctx with fault := some m } (.put id body) st =
        (⟨400, messageBody m⟩, st)) ∧
    (∀ model id st,
      createCrudEndpoints model { ctx with fault := some m } (.delete id) st =
        (⟨500, messageBody m⟩, st)) ∧
    (∀ st, heroGet { ctx with fault := some m } st = (⟨500, messageBody m⟩, st)) ∧
    (∀ body st, heroPost { ctx with fault := some m } body st = (⟨400, messageBody m⟩, st)) ∧
    (∀ (c : Ctx) (req : Request) (db : Db),
      ¬ (200 ≤ (app c req db).1.status ∧ (app c req db).1.status < 300) →
      (∃ s, (app c req db).1.body = messageBody s) ∨
      (∃ body, req = .login body ∧ (app c req db).1 =
        ⟨401, .object [("success", .bool false), ("message", .str "Password salah")]⟩)) := by
  refine ⟨fun _ _ => rfl, fun _ _ _ => rfl, fun _ _ _ _ => rfl, fun _ _ _ => rfl, fun _ => rfl,
    fun _ _ => rfl, ?_⟩
  intro c req db h
  cases req with
  | heroGet =>
    left
    cases hf : c.fault with
    | none =>
      exfalso; apply h
      simp [app, heroGet, findOne, settle, hf]
    | some e => exact ⟨e, by simp [app, heroGet, findOne, settle, hf]⟩
  | heroPost body =>
    left
    rcases heroPost_cases c body db.hero with ⟨e, hp⟩ | ⟨_, d, hp⟩ | ⟨e, es, d', _, _, hp⟩
    · exact ⟨e, by simp [app, hp]⟩
    · exfalso; apply h; simp [app, hp]
    · exfalso; apply h; simp [app, hp]
  | login body =>
    right
    refine ⟨body, rfl, ?_⟩
    cases hs : strictEq (getField body "password") c.ADMIN_PASSWORD with
    | true =>
      exfalso; apply h
      simp [app, login, hs]
    | false => simp [app, login, hs]
  | crud cl r =>
    left
    exact crud_error_body cl.model c r (db.get cl) h

/-! ## Further properties of the routing table and the factory -/

theorem crud_step_ids_unique (model : Model) (ctx : Ctx) (r : CrudReq) (st : Store)
    (hu : (st.map Doc._id).Nodup) :
    ((createCrudEndpoints model ctx r st).2.map Doc._id).Nodup := by
  cases r with
  | get =>
    cases hf : ctx.fault <;>
      simpa [createCrudEndpoints, crudGet, find_sort, settle, hf] using hu
  | post body =>
    rcases crudPost_cases model ctx body st with ⟨m, hp⟩ | ⟨d, hfresh, hp⟩
    · simpa [createCrudEndpoints, hp] using hu
    · simp only [createCrudEndpoints, hp, List.map_append, List.map_cons, List.map_nil]
      rw [List.nodup_append]
      refine ⟨hu, List.nodup_singleton _, ?_⟩
      intro a ha hb
      simp only [List.mem_singleton] at hb
      subst hb
      exact hfresh ha
  | put id body =>
    rcases crudPut_cases model ctx id body st with ⟨m, hp⟩ | hp | ⟨d', hid, hp⟩
    · simpa [createCrudEndpoints, hp] using hu
    · simpa [createCrudEndpoints, hp] using hu
    · simp only [createCrudEndpoints, hp]
      rw [replaceById_ids id d' hid st]
      exact hu
  | delete id =>
    have hsub := (deleteById_sublist id st).map Doc._id
    have hnd := hu.sublist hsub
    cases hf : ctx.fault with
    | some m =>
      simpa [createCrudEndpoints, crudDelete, findByIdAndDelete, settle, hf] using hu
    | none =>
      simp only [createCrudEndpoints, crudDelete, findByIdAndDelete, settle, hf]
      cases hd : (deleteById id st).1 with
      | none =>
        rw [show deleteById id st = (none, (deleteById id st).2) from Prod.ext hd rfl]
        exact hnd
      | some d =>
        rw [show deleteById id st = (some d, (deleteById id st).2) from Prod.ext hd rfl]
        exact hnd

/-- X1: identifiers are unique in every collection reached from the empty
one by any sequence of List, Create, Update and Delete requests, whether
their store calls succeed or reject. -/
theorem crud_run_ids_unique (model : Model) (calls : List (Ctx × CrudReq)) :
    ((crudRun model calls).map Doc._id).Nodup := by
  have key : ∀ (cs : List (Ctx × CrudReq)) (st : Store), (st.map Doc._id).Nodup →
      ((cs.foldl (fun st c => (createCrudEndpoints model c.1 c.2 st).2) st).map
        Doc._id).Nodup := by
    intro cs
    induction cs with
    | nil => intro st h; simpa using h
    | cons c cs ih =>
      intro st h
      rw [List.foldl_cons]
      exact ih _ (crud_step_ids_unique model c.1 c.2 st h)
  exact key calls [] (by simp)

/-- X2: a request routed to the router of collection `c` acts on that
collection as `createCrudEndpoints` says for the model registered there,
and leaves the hero collection and every other collection as they were. -/
theorem crud_route_touches_one_collection (ctx : Ctx) (c : Coll) (r : CrudReq) (db : Db) :
    (app ctx (.crud c r) db).1 = (createCrudEndpoints c.model ctx r (db.get c)).1 ∧
    (app ctx (.crud c r) db).2.get c = (createCrudEndpoints c.model ctx r (db.get c)).2 ∧
    (app ctx (.crud c r) db).2.hero = db.hero ∧
    (∀ c', c' ≠ c → (app ctx (.crud c r) db).2.get c' = db.get c') := by
  refine ⟨rfl, ?_, ?_, ?_⟩
  · cases c <;> rfl
  · cases c <;> rfl
  · intro c' hc
    cases c <;> cases c' <;> first | rfl | exact absurd rfl hc

/-- X3: every response of the application carries one of the status codes
200, 201, 400, 401, 404 and 500. -/
theorem app_status_codes (ctx : Ctx) (req : Request) (db : Db) :
    (app ctx req db).1.status ∈ [200, 201, 400, 401, 404, 500] := by
  cases req with
  | heroGet => cases hf : ctx.fault <;> simp [app, heroGet, findOne, settle, hf]
  | heroPost body =>
    rcases heroPost_cases ctx body db.hero with ⟨e, hp⟩ | ⟨_, d, hp⟩ | ⟨e, es, d', _, _, hp⟩ <;>
      simp [app, hp]
  | login body =>
    cases hs : strictEq (getField body "password") ctx.ADMIN_PASSWORD <;> simp [app, login, hs]
  | crud c r =>
    cases r with
    | get =>
      cases hf : ctx.fault <;> simp [app, createCrudEndpoints, crudGet, find_sort, settle, hf]
    | post body =>
      rcases crudPost_cases c.model ctx body (db.get c) with ⟨m, hp⟩ | ⟨d, _, hp⟩ <;>
        simp [app, createCrudEndpoints, hp]
    | put id body =>
      rcases crudPut_cases c.model ctx id body (db.get c) with ⟨m, hp⟩ | hp | ⟨d', _, hp⟩ <;>
        simp [app, createCrudEndpoints, hp]
    | delete id =>
      cases hf : ctx.fault with
      | some m => simp [app, createCrudEndpoints, crudDelete, findByIdAndDelete, settle, hf]
      | none =>
        simp only [app, createCrudEndpoints, crudDelete, findByIdAndDelete, settle, hf]
        cases hd : (deleteById id (db.get c)).1 with
        | none =>
          rw [show deleteById id (db.get c) = (none, (deleteById id (db.get c)).2)
            from Prod.ext hd rfl]
          simp
        | some d =>
          rw [show deleteById id (db.get c) = (some d, (deleteById id (db.get c)).2)
            from Prod.ext hd rfl]
          simp

end Portofolio
